import Mathlib

/-!
# Verification of the listing scraper / autofill extension

A shallow embedding, in Lean 4, of the pure computational core of a browser
extension that scrapes real-estate listings from one site's DOM and re-enters
them into another site's listing form.  DOM queries (`document.querySelector`
and friends) are modelled as oracle fields of an abstract `Dom` structure;
every value transformation, parser, matcher and retry loop is translated
directly from the JavaScript source.

Strings are modelled as Lean `String`s (lists of Unicode characters), numbers
as rationals (`ℚ`).  JavaScript `parseFloat` is modelled faithfully for finite
decimal inputs (leading whitespace, optional sign, mantissa, optional
exponent); the `Infinity` literal and IEEE-754 rounding are not modelled, and
no claim depends on them.
-/

namespace WebScraper

/-! ## JavaScript character classes and string primitives -/

/-- The whitespace class of JavaScript (`\s` plus NBSP, which the source also
strips explicitly).  Exotic Unicode space separators beyond NBSP/BOM are not
listed; no claim input contains them. -/
def jsIsSpace (c : Char) : Bool :=
  c = ' ' ∨ c = '\t' ∨ c = '\n' ∨ c = '\r' ∨ c = '\x0b' ∨ c = '\x0c' ∨
  c = ' ' ∨ c = '﻿'

/-- JavaScript `\d`: the ASCII digits. -/
def jsIsDigit (c : Char) : Bool := c.isDigit

/-- JavaScript `\w`: `[A-Za-z0-9_]`.  Georgian letters are *not* word
characters for JS regexes; this drives the `\b` behaviour modelled below. -/
def jsWordChar (c : Char) : Bool :=
  ('A' ≤ c ∧ c ≤ 'Z') ∨ ('a' ≤ c ∧ c ≤ 'z') ∨ c.isDigit ∨ c = '_'

/-- The `.` metacharacter of a JS regex: any character except a line
terminator. -/
def jsDotChar (c : Char) : Bool :=
  c ≠ '\n' ∧ c ≠ '\r' ∧ c ≠ ' ' ∧ c ≠ ' '

/-- Strip leading and trailing JS whitespace from a character list. -/
def trimList (l : List Char) : List Char :=
  ((l.dropWhile jsIsSpace).reverse.dropWhile jsIsSpace).reverse

/-- JavaScript `String.prototype.trim`. -/
def jsTrim (s : String) : String := (trimList s.toList).asString

/-- `needle` occurs contiguously inside `hay`. -/
def listIsInfix (needle : List Char) : List Char → Bool
  | [] => needle.isEmpty
  | c :: rest => needle.isPrefixOf (c :: rest) || listIsInfix needle rest

/-- JavaScript `hay.includes(needle)`. -/
def jsIncludes (hay needle : String) : Bool :=
  listIsInfix needle.toList hay.toList

/-- Remove every occurrence of a character (a `replace(/c/g, '')`). -/
def removeAllChar (c : Char) (l : List Char) : List Char :=
  l.filter (fun x => x ≠ c)

/-- Replace only the first occurrence of a character (a `replace(c, d)` with a
non-global pattern, as used by the source's price and numeric cleanup). -/
def replaceFirstChar (c d : Char) : List Char → List Char
  | [] => []
  | x :: xs => if x = c then d :: xs else x :: replaceFirstChar c d xs

/-- JavaScript `value.split(c)` on a character list. -/
def splitOnChar (c : Char) : List Char → List (List Char)
  | [] => [[]]
  | x :: xs =>
    match splitOnChar c xs with
    | [] => [[]]
    | g :: gs => if x = c then [] :: g :: gs else (x :: g) :: gs

/-- JavaScript `value.lastIndexOf(c)` (−1 when absent). -/
def jsLastIndexOf (l : List Char) (c : Char) : Int :=
  match l with
  | [] => -1
  | x :: xs =>
    let r := jsLastIndexOf xs c
    if r ≥ 0 then r + 1 else if x = c then 0 else -1

/-- Numeric value of a digit character. -/
def digitVal (c : Char) : ℕ := c.toNat - '0'.toNat

/-- Value of a digit string read in base 10. -/
def digitsVal (l : List Char) : ℕ :=
  l.foldl (fun acc c => 10 * acc + digitVal c) 0

/-- Value of a digit string read as a decimal fraction (`.d₁…dₖ`). -/
def fracVal (l : List Char) : ℚ :=
  (digitsVal l : ℚ) / ((10 ^ l.length : ℕ) : ℚ)

/-- `10^e` for an integer exponent, as a rational. -/
def pow10Z : Int → ℚ
  | .ofNat n => ((10 ^ n : ℕ) : ℚ)
  | .negSucc n => 1 / ((10 ^ (n + 1) : ℕ) : ℚ)

/-! ## JavaScript parseFloat

`parseFloat` is split into a discrete front end (`jsParseFloatShape`, which
scans sign, mantissa digits and exponent) and a rational interpretation
(`ratOfShape`); `jsParseFloatList` composes the two.  The split keeps the
character-level scan fully computable by the kernel while the rational value
is handled by arithmetic lemmas. -/

/-- Sign, integer digits, fraction digits and decimal exponent of a parsed
float. -/
structure FloatShape where
  negative : Bool
  intDigits : List Char
  fracDigits : List Char
  exponent : Int
deriving DecidableEq, Repr

/-- Exponent part of `parseFloat`: an optional sign and digits; ignored
(contributing 0) when no digits follow. -/
def expDigits (l : List Char) : Int :=
  if l.head? = some '+' then
    if ((l.tail).takeWhile jsIsDigit).isEmpty then 0
    else (digitsVal ((l.tail).takeWhile jsIsDigit) : Int)
  else if l.head? = some '-' then
    if ((l.tail).takeWhile jsIsDigit).isEmpty then 0
    else -(digitsVal ((l.tail).takeWhile jsIsDigit) : Int)
  else
    if (l.takeWhile jsIsDigit).isEmpty then 0
    else (digitsVal (l.takeWhile jsIsDigit) : Int)

/-- The exponent contributed by an `e`/`E` suffix after a mantissa. -/
def expFactor (l : List Char) : Int :=
  if l.head? = some 'e' ∨ l.head? = some 'E' then expDigits l.tail else 0

/-- The discrete scan of JavaScript `parseFloat`: skip leading whitespace, an
optional sign, the longest `digits [. digits] [exponent]` prefix; `NaN`
(no digit in the mantissa) is `none`. -/
def jsParseFloatShape (l : List Char) : Option FloatShape :=
  let l0 := l.dropWhile jsIsSpace
  let negative := l0.head? = some '-'
  let l1 := if l0.head? = some '-' ∨ l0.head? = some '+' then l0.tail else l0
  let i1 := l1.takeWhile jsIsDigit
  let r1 := l1.dropWhile jsIsDigit
  if r1.head? = some '.' then
    let r2 := r1.tail
    let i2 := r2.takeWhile jsIsDigit
    let r3 := r2.dropWhile jsIsDigit
    if i1.isEmpty ∧ i2.isEmpty then none
    else some ⟨negative, i1, i2, expFactor r3⟩
  else
    if i1.isEmpty then none
    else some ⟨negative, i1, [], expFactor r1⟩

/-- Rational value of a parsed float shape. -/
def ratOfShape (s : FloatShape) : ℚ :=
  (if s.negative then (-1 : ℚ) else 1) *
    ((digitsVal s.intDigits : ℚ) + fracVal s.fracDigits) * pow10Z s.exponent

/-- JavaScript `parseFloat` on a character list (`none` models `NaN`). -/
def jsParseFloatList (l : List Char) : Option ℚ :=
  (jsParseFloatShape l).map ratOfShape

/-- JavaScript `parseFloat` on a string. -/
def jsParseFloat (s : String) : Option ℚ := jsParseFloatList s.toList

/-- A plain decimal reader (leading digits, an optional dot, more digits;
anything after — in particular a second separator — is ignored).  Written
independently of `jsParseFloatList` (no whitespace, sign or exponent
handling); used to express the amended price-parsing claim. -/
def simpleParse (l : List Char) : Option ℚ :=
  let i1 := l.takeWhile jsIsDigit
  let r1 := l.dropWhile jsIsDigit
  if r1.head? = some '.' then
    let i2 := (r1.tail).takeWhile jsIsDigit
    if i1.isEmpty ∧ i2.isEmpty then none
    else some ((digitsVal i1 : ℚ) + fracVal i2)
  else if i1.isEmpty then none else some (digitsVal i1)

/-! ## The price parser (`parsePriceText` of the scraper) -/

/-- Characters surviving the price cleanup `replace(/[^\d.,]/g, '')`. -/
def isPriceChar (c : Char) : Bool := c.isDigit ∨ c = '.' ∨ c = ','

/-- The cleanup step of `parsePriceText`:
`text.replace(/[\s ]/g, '').replace(/[^\d.,]/g, '')`. -/
def cleanPriceString (s : String) : List Char :=
  (s.toList.filter (fun c => ¬ jsIsSpace c)).filter isPriceChar

/-- The branch structure of `parsePriceText`, parameterised — exactly as in
the source — by its local numeric-conversion helper `toNumber`.  The separator
convention is decided from the separators present in the cleaned value. -/
def priceTextBranches (α : Type) (toNumber : List Char → Option α) (text : String) : Option α :=
  if text = "" then none
  else
    let value := cleanPriceString text
    if value.isEmpty then none
    else
      let hasComma := value.contains ','
      let hasDot := value.contains '.'
      if hasComma ∧ hasDot then
        if jsLastIndexOf value '.' > jsLastIndexOf value ',' then
          toNumber (removeAllChar ',' value)
        else
          toNumber (replaceFirstChar ',' '.' (removeAllChar '.' value))
      else if hasComma then
        let parts := splitOnChar ',' value
        let last := parts.getLastD []
        if last.length = 3 ∧ parts.length > 1 then
          toNumber (removeAllChar ',' value)
        else if last.length ≤ 2 then
          toNumber (replaceFirstChar ',' '.' value)
        else
          toNumber (removeAllChar ',' value)
      else if hasDot then
        let parts := splitOnChar '.' value
        let last := parts.getLastD []
        if last.length = 3 ∧ parts.length > 1 then
          toNumber (removeAllChar '.' value)
        else
          toNumber value
      else
        toNumber value

/-- `parsePriceText` translated from the scraper: currency symbols and spaces
are dropped, then the comma/dot convention decides how `parseFloat` is
applied.  `none` models the `null` returns (empty input, empty cleaned value,
`NaN`). -/
def parsePriceText (text : String) : Option ℚ :=
  priceTextBranches ℚ jsParseFloatList text

/-- The discrete companion of `parsePriceText`: the same branches, returning
the float shape instead of its rational value. -/
def parsePriceTextShape (text : String) : Option FloatShape :=
  priceTextBranches FloatShape jsParseFloatShape text

/-- The price rule exactly as the specification words it: with both
separators present, the right-most one is the decimal mark (all other
separators are grouping); with only commas, the comma is decimal exactly when
the group after the last comma is at most 2 digits *and* there is exactly one
comma, else commas are thousands separators; mirrored for dot-only.  Computed
directly on digit groups, independently of `parseFloat`. -/
def claimPriceRule (text : String) : Option ℚ :=
  if text = "" then none
  else
    let value := cleanPriceString text
    if value.isEmpty then none
    else if (value.filter jsIsDigit).isEmpty then none
    else
      let hasComma := value.contains ','
      let hasDot := value.contains '.'
      if hasComma ∧ hasDot then
        let frac := (value.reverse.takeWhile jsIsDigit).reverse
        let intDigits := (value.take (value.length - frac.length - 1)).filter jsIsDigit
        some ((digitsVal intDigits : ℚ) + fracVal frac)
      else if hasComma then
        let parts := splitOnChar ',' value
        if parts.length = 2 ∧ (parts.getLastD []).length ≤ 2 then
          some ((digitsVal (parts.headD []) : ℚ) + fracVal (parts.getLastD []))
        else
          some (digitsVal (value.filter jsIsDigit))
      else if hasDot then
        let parts := splitOnChar '.' value
        if parts.length = 2 ∧ (parts.getLastD []).length ≤ 2 then
          some ((digitsVal (parts.headD []) : ℚ) + fracVal (parts.getLastD []))
        else
          some (digitsVal (value.filter jsIsDigit))
      else
        some (digitsVal value)

/-- The amended price rule (what the code actually implements): the same
separator-convention branches as the source, but each selected character
string is read by the plain decimal reader `simpleParse` — so when the
decimal mark is a comma, only the *first* comma becomes the decimal point and
reading stops at any later comma, and the comma-decimal case does not require
the comma to be unique; dot-only input that is not thousands-grouped is read
directly with the first dot as the decimal point. -/
def amendedPriceRule (text : String) : Option ℚ :=
  priceTextBranches ℚ simpleParse text

/-! ## JavaScript number-to-string and toLowerCase -/

/-- The character for the digit `n % 10`. -/
def natDigitChar (n : ℕ) : Char := Char.ofNat ('0'.toNat + n % 10)

/-- Decimal digits of a natural number, with explicit fuel so that the
kernel can evaluate it. -/
def natDigitsAux : ℕ → ℕ → List Char
  | 0, _ => []
  | fuel + 1, n =>
    if n < 10 then [natDigitChar n]
    else natDigitsAux fuel (n / 10) ++ [natDigitChar (n % 10)]

/-- Decimal digits of a natural number. -/
def natDigits (n : ℕ) : List Char := natDigitsAux (n + 1) n

/-- The least `k ≤ 39` with `den ∣ 10^k`, when one exists. -/
def decimalExponent (den : ℕ) : Option ℕ :=
  (List.range 40).find? (fun k => 10 ^ k % den == 0)

/-- `m` written with exactly `k` digits (left-padded with zeros). -/
def padDigits (k m : ℕ) : List Char :=
  List.replicate (k - (natDigits m).length) '0' ++ natDigits m

/-- JavaScript `Number.prototype.toString` for the rationals reachable in
this model: integers print as their decimal digits, finite decimals as
`int.frac` (the minimal exponent gives the shortest, trailing-zero-free
fraction, matching JS).  A denominator with no decimal expansion cannot be
produced by `parseFloat` and is rendered `num/den`; only the character
alphabet of the output is ever used in proofs about such values. -/
def jsNumToString (q : ℚ) : String :=
  let sign : List Char := if q < 0 then ['-'] else []
  let a : ℚ := |q|
  if a.den = 1 then (sign ++ natDigits a.num.natAbs).asString
  else
    match decimalExponent a.den with
    | some k =>
      let scaled : ℕ := a.num.natAbs * (10 ^ k / a.den)
      (sign ++ natDigits (scaled / 10 ^ k) ++ '.' :: padDigits k (scaled % 10 ^ k)).asString
    | none => (sign ++ natDigits a.num.natAbs ++ '/' :: natDigits a.den).asString

/-- ASCII lower-casing (JS `toLowerCase`; non-ASCII letters are untouched —
Georgian mkhedruli has no case mapping). -/
def jsToLowerChar (c : Char) : Char :=
  if 'A' ≤ c ∧ c ≤ 'Z' then Char.ofNat (c.toNat + 32) else c

/-- JavaScript `String.prototype.toLowerCase` (ASCII range). -/
def jsToLower (s : String) : String := (s.toList.map jsToLowerChar).asString

/-! ## JavaScript values (string-or-number union) -/

/-- A scraped value: JS fields hold either a string or a (finite) number. -/
inductive JsVal where
  | str (s : String)
  | num (q : ℚ)
deriving DecidableEq, Repr

/-- JavaScript `value.toString()`. -/
def jsValToString : JsVal → String
  | .str s => s
  | .num q => jsNumToString q

/-- JavaScript `parseFloat(value)`: a number is passed through (its decimal
string re-parses to itself), a string is parsed. -/
def jsParseFloatVal : JsVal → Option ℚ
  | .str s => jsParseFloat s
  | .num q => some q

/-! ## Deal-type detection (`detectDealType` of the scraper, claim C3) -/

/-- The fixed phrase list, longest first, exactly as in the source. -/
def dealTypePhrases : List String :=
  ["ქირავდება დღიურად", "ქირავდება", "გირავდება", "იყიდება"]

/-- `detectDealType`: the first phrase contained in the page text, else
`null`. -/
def detectDealType (pageText : String) : Option String :=
  dealTypePhrases.find? (fun dealType => jsIncludes pageText dealType)

/-! ## Numeric property details (`collectPropertyDetails`, claim C7) -/

/-- The numeric cleanup of `collectPropertyDetails`: trim, drop one trailing
non-digit unit character (re-trimming), strip everything but digits and
separators, and turn the (first) comma into a dot. -/
def cleanNumericString (value : String) : List Char :=
  let c0 := trimList value.toList
  let c1 :=
    if c0.length > 0 ∧ jsIsDigit (c0.getLastD ' ') = false then trimList c0.dropLast
    else c0
  replaceFirstChar ',' '.' (c1.filter isPriceChar)

/-- Numeric-field conversion of `collectPropertyDetails`: `parseFloat` the
cleaned value, keeping the original string when the parse fails (`NaN`). -/
def parseNumericDetail (value : String) : JsVal :=
  match jsParseFloatList (cleanNumericString value) with
  | some q => .num q
  | none => .str value

/-! ## Room and bathroom display tokens (`fillRoomsField` /
`fillBathroomField`, claim C4) -/

/-- The token `fillRoomsField` searches for: the trimmed value, bucketed to
`"8+"` when it parses as a number greater than 8. -/
def roomSearchText (roomValue : JsVal) : String :=
  let roomText := jsTrim (jsValToString roomValue)
  match jsParseFloatVal roomValue with
  | some roomNumber => if roomNumber > 8 then "8+" else roomText
  | none => roomText

/-- The token `fillBathroomField` searches for: `"არ აქვს"` for 0, `'0'` or
text containing the no-bathroom phrases, `"5+"` for numbers above 5, the
number's own string otherwise, and the trimmed value when it is not
numeric. -/
def bathroomSearchText (bathroomValue : JsVal) : String :=
  let bathroomText := jsTrim (jsValToString bathroomValue)
  if bathroomValue = .num 0 ∨ bathroomValue = .str "0" ∨
      jsIncludes (jsToLower (jsValToString bathroomValue)) "არ აქვს" = true ∨
      jsIncludes (jsToLower (jsValToString bathroomValue)) "არა" = true then
    "არ აქვს"
  else
    match jsParseFloatVal bathroomValue with
    | some bathroomNumber =>
      if bathroomNumber > 5 then "5+" else jsNumToString bathroomNumber
    | none => bathroomText

/-! ## The scrape-time address transform (`transformAddress`, claim C5)

The source matches `/^(.+?)\s*-\s*(.+?)\s*მ\/რ$/` with lazy groups.  The
matcher below reproduces the engine's deterministic search: the district
group grows one character at a time until the separator (`\s*-\s*`, which is
deterministic because `-` is not whitespace) and the rest match; the
microdistrict group likewise grows until only whitespace and the final
`მ/რ` remain.  The one engine behaviour not modelled is the backtrack of the
separator's trailing `\s*` when the microdistrict group would otherwise
consist entirely of whitespace (a match whose microdistrict trims to
nothing); no claim concerns such inputs. -/

/-- The literal `მ/რ` tail of the address pattern. -/
def mrTail : List Char := ['მ', '/', 'რ']

/-- Does the remainder match `\s*მ\/რ$`? -/
def tailRestOk (l : List Char) : Bool := l.dropWhile jsIsSpace == mrTail

/-- Lazy `(.+?)` for the microdistrict group: the shortest nonempty prefix
after which the remainder is `\s*მ\/რ$`. -/
def microSearch (acc : List Char) : List Char → Option (List Char)
  | [] => none
  | c :: rest =>
    if jsDotChar c then
      if tailRestOk rest then some (acc ++ [c])
      else microSearch (acc ++ [c]) rest
    else none

/-- `\s*-\s*` followed by the microdistrict group. -/
def sepThenMicro (l : List Char) : Option (List Char) :=
  let l1 := l.dropWhile jsIsSpace
  if l1.head? = some '-' then microSearch [] ((l1.tail).dropWhile jsIsSpace)
  else none

/-- Lazy `(.+?)` for the district group. -/
def districtSearch (acc : List Char) : List Char → Option (List Char × List Char)
  | [] => none
  | c :: rest =>
    if jsDotChar c then
      match sepThenMicro rest with
      | some micro => some (acc ++ [c], micro)
      | none => districtSearch (acc ++ [c]) rest
    else none

/-- The full-pattern match of `transformAddress` (district and microdistrict
groups, untrimmed). -/
def transformAddressMatch (l : List Char) : Option (List Char × List Char) :=
  districtSearch [] l

/-- `transformAddress` from the scraper: rewrite
`"{district} - {microdistrict} მ/რ"` to
`"{microdistrict} მიკრორაიონი - {district}"`, returning non-matching
addresses unchanged. -/
def transformAddress (address : String) : String :=
  if address = "" then address
  else
    match transformAddressMatch address.toList with
    | some (district, microdistrict) =>
      ((trimList microdistrict) ++ " მიკრორაიონი - ".toList ++ trimList district).asString
    | none => address

/-! ## The later street normalizer (`normalizeStreetForSs`, claim C5)

Each regex of the source is modelled by a deterministic scanner; the
greedy quantifiers involved never need backtracking because every adjacent
pair of sub-patterns draws from disjoint character classes.  JS `\b` is a
transition between `[A-Za-z0-9_]` and anything else — Georgian letters are
not word characters, which the `\b`-carrying rules below reproduce
faithfully. -/

/-- `[IVX]` under the `i` flag. -/
def romanChar (c : Char) : Bool :=
  c = 'I' ∨ c = 'V' ∨ c = 'X' ∨ c = 'i' ∨ c = 'v' ∨ c = 'x'

/-- `[IVX\d]` under the `i` flag. -/
def romanOrDigitChar (c : Char) : Bool := romanChar c ∨ c.isDigit

/-- Consume an exact literal. -/
def expectLit (pre l : List Char) : Option (List Char) :=
  if pre.isPrefixOf l then some (l.drop pre.length) else none

/-- Consume `\s+`. -/
def skipSpaces1 (l : List Char) : Option (List Char) :=
  match l with
  | c :: r => if jsIsSpace c then some (r.dropWhile jsIsSpace) else none
  | [] => none

/-- Consume `\.?` (greedy, deterministic here). -/
def optDot (l : List Char) : List Char :=
  match l with
  | '.' :: r => r
  | _ => l

/-- Consume one-or-more characters of a class, returning them. -/
def takeClass1 (p : Char → Bool) (l : List Char) : Option (List Char × List Char) :=
  match l.takeWhile p with
  | [] => none
  | g => some (g, l.dropWhile p)

/-- Pattern 0 of `normalizeStreetForSs`:
`/^ნუცუბიძის\s+პლ\.?\s*([IVX]+)\s*მ\/რ\.?\s*[IVX\d]+\s*კვარტ\.?$/i`,
returning the microdistrict roman-numeral group. -/
def matchNutsubidze (l : List Char) : Option (List Char) := do
  let l1 ← expectLit "ნუცუბიძის".toList l
  let l2 ← skipSpaces1 l1
  let l3 ← expectLit "პლ".toList l2
  let l4 := (optDot l3).dropWhile jsIsSpace
  let (mkr, l5) ← takeClass1 romanChar l4
  let l6 := l5.dropWhile jsIsSpace
  let l7 ← expectLit "მ/რ".toList l6
  let l8 := (optDot l7).dropWhile jsIsSpace
  let (_, l9) ← takeClass1 romanOrDigitChar l8
  let l10 := l9.dropWhile jsIsSpace
  let l11 ← expectLit "კვარტ".toList l10
  if (optDot l11).isEmpty then some mkr else none

/-- The tail of pattern 1 after the lazy district group:
`\s*-\s*([IVX]+)\s*მ\/რ\s*([IVX\d]+)\s*კვარტ\.?$`. -/
def mkrKvTail (l : List Char) : Option (List Char × List Char) :=
  let l1 := l.dropWhile jsIsSpace
  if l1.head? = some '-' then do
    let r1 := (l1.tail).dropWhile jsIsSpace
    let (mkr, r2) ← takeClass1 romanChar r1
    let r3 := r2.dropWhile jsIsSpace
    let r4 ← expectLit "მ/რ".toList r3
    let r5 := r4.dropWhile jsIsSpace
    let (kv, r6) ← takeClass1 romanOrDigitChar r5
    let r7 := r6.dropWhile jsIsSpace
    let r8 ← expectLit "კვარტ".toList r7
    if (optDot r8).isEmpty then some (mkr, kv) else none
  else none

/-- Lazy district group of pattern 1. -/
def mkrKvSearch (acc : List Char) : List Char → Option (List Char × List Char × List Char)
  | [] => none
  | c :: rest =>
    if jsDotChar c then
      match mkrKvTail rest with
      | some (mkr, kv) => some (acc ++ [c], mkr, kv)
      | none => mkrKvSearch (acc ++ [c]) rest
    else none

/-- `district.replace(/\s+/, ' ')` (non-global: only the first run). -/
def collapseFirstSpaceRun : List Char → List Char
  | [] => []
  | c :: rest =>
    if jsIsSpace c then ' ' :: rest.dropWhile jsIsSpace
    else c :: collapseFirstSpaceRun rest

/-- `s.replace(/\bშეს\.\b/gi, ' შესახვევი ')`: the occurrence needs a word
character (`[A-Za-z0-9_]`) on *both* sides — before `შ` and after `.` —
because all of `შეს.`'s own characters are non-word. -/
def replaceShesAux (fuel : ℕ) (prev : Option Char) (l : List Char) : List Char :=
  match fuel, l with
  | 0, rest => rest
  | _, [] => []
  | fuel + 1, c :: rest =>
    let prevIsWord := match prev with | some p => jsWordChar p | none => false
    let nextIsWord := match (rest.drop 3).head? with | some d => jsWordChar d | none => false
    if c = 'შ' ∧ prevIsWord = true ∧ "ეს.".toList.isPrefixOf rest ∧ nextIsWord = true then
      " შესახვევი ".toList ++ replaceShesAux fuel (some '.') (rest.drop 3)
    else c :: replaceShesAux fuel (some c) rest

/-- The `შეს.` word-boundary replacement on a whole string. -/
def replaceShesWordBounded (l : List Char) : List Char :=
  replaceShesAux l.length none l

/-- One alternative of the lookahead `(?=(ქ\.?|ქუჩა|ჩიხი|შესახვევი|შეს\.?)\b)`:
the word followed by a word character (every alternative ends in a non-word
character, so `\b` demands a word character next). -/
def lookaheadAlt (w l : List Char) : Bool :=
  w.isPrefixOf l &&
    (match (l.drop w.length).head? with | some d => jsWordChar d | none => false)

/-- The whole lookahead, over all alternative spellings. -/
def lookaheadTypeOk (l : List Char) : Bool :=
  lookaheadAlt "ქ.".toList l ∨ lookaheadAlt "ქ".toList l ∨ lookaheadAlt "ქუჩა".toList l ∨
  lookaheadAlt "ჩიხი".toList l ∨ lookaheadAlt "შესახვევი".toList l ∨
  lookaheadAlt "შეს.".toList l ∨ lookaheadAlt "შეს".toList l

/-- `s.replace(/\s+[IVX]+\s+(?=(ქ\.?|ქუჩა|ჩიხი|შესახვევი|შეს\.?)\b)/gi, ' ')`. -/
def stripRomanAux (fuel : ℕ) (l : List Char) : List Char :=
  match fuel, l with
  | 0, rest => rest
  | _, [] => []
  | fuel + 1, c :: rest =>
    if jsIsSpace c then
      let t1 := (c :: rest).dropWhile jsIsSpace
      let rom := t1.takeWhile romanChar
      let t2 := t1.dropWhile romanChar
      let sp2 := t2.takeWhile jsIsSpace
      let t3 := t2.dropWhile jsIsSpace
      if rom ≠ [] ∧ sp2 ≠ [] ∧ lookaheadTypeOk t3 = true then
        ' ' :: stripRomanAux fuel t3
      else c :: stripRomanAux fuel rest
    else c :: stripRomanAux fuel rest

/-- The roman-numeral branch-number stripper on a whole string. -/
def stripRomanBeforeType (l : List Char) : List Char :=
  stripRomanAux l.length l

/-- The street-type suffix alternatives of
`/\s+(ქ\.?|ქუჩა|გამზ\.?|ჩიხი|ჩ\.|შესახვევი|შეს\.?)$/i`. -/
def streetTypeSuffixes : List (List Char) :=
  ["ქ.", "ქ", "ქუჩა", "გამზ.", "გამზ", "ჩიხი", "ჩ.", "შესახვევი", "შეს.", "შეს"].map
    String.toList

/-- Drop a final `\s+(street-type)$` suffix (leftmost match, to the end). -/
def stripTypeSuffix : List Char → List Char
  | [] => []
  | c :: rest =>
    if jsIsSpace c ∧ streetTypeSuffixes.contains ((c :: rest).dropWhile jsIsSpace) then []
    else c :: stripTypeSuffix rest

/-- The class `[,\.\s]`. -/
def punctSpaceChar (c : Char) : Bool := c = ',' ∨ c = '.' ∨ jsIsSpace c

/-- `s.replace(/[,\.\s]+$/g, '')`. -/
def trimTrailingPunct (l : List Char) : List Char :=
  (l.reverse.dropWhile punctSpaceChar).reverse

/-- `s.replace(/\s+/g, ' ')`. -/
def collapseSpaceRunsAux (fuel : ℕ) (l : List Char) : List Char :=
  match fuel, l with
  | 0, rest => rest
  | _, [] => []
  | fuel + 1, c :: rest =>
    if jsIsSpace c then ' ' :: collapseSpaceRunsAux fuel (rest.dropWhile jsIsSpace)
    else c :: collapseSpaceRunsAux fuel rest

/-- Collapse every whitespace run to a single space. -/
def collapseSpaceRuns (l : List Char) : List Char :=
  collapseSpaceRunsAux l.length l

/-- `normalizeStreetForSs` from the autofiller: the ნუცუბიძის-plateau rewrite,
then the microdistrict/kvartal rewrite, then the generic street-name rules
(შეს. expansion, roman branch-number strip, street-type suffix strip,
punctuation cleanup), falling back to the trimmed original. -/
def normalizeStreetForSs (address : String) : String :=
  if address = "" then address
  else
    let normalized := trimList address.toList
    match matchNutsubidze normalized with
    | some mkr =>
      ("ნუცუბიძის ".toList ++ trimList mkr ++ " პლატო".toList).asString
    | none =>
      match mkrKvSearch [] normalized with
      | some (g1, mkr, kv) =>
        let district := collapseFirstSpaceRun (trimList g1)
        ((trimList mkr) ++ " მიკრორაიონი, ".toList ++ trimList kv ++
          " კვარტალი - ".toList ++ district).asString
      | none =>
        let s1 := replaceShesWordBounded normalized
        let s2 := stripRomanBeforeType s1
        let s3 := stripTypeSuffix s2
        let s4 := trimTrailingPunct s3
        let s5 := trimList (collapseSpaceRuns s4)
        if s5.isEmpty then normalized.asString else s5.asString

/-! ## Option-text matching (`fillLocation` street options and
`fillRoomsField`, claim C6) -/

/-- JavaScript `s.startsWith(pre)`. -/
def jsStartsWith (s pre : String) : Bool := pre.toList.isPrefixOf s.toList

/-- Street-option selection from the location filler: exact trimmed match,
then prefix match, then the shortest containing option (a stable sort by
trimmed length followed by taking the first element). -/
def findStreetOption (streetOptions : List String) (streetValue : String) : Option String :=
  match streetOptions.find? (fun opt => jsTrim opt == streetValue) with
  | some opt => some opt
  | none =>
    match streetOptions.find? (fun opt => jsStartsWith (jsTrim opt) streetValue) with
    | some opt => some opt
    | none =>
      match streetOptions.filter (fun opt => jsIncludes (jsTrim opt) streetValue) with
      | [] => none
      | c :: rest =>
        some (rest.foldl (fun best opt =>
          if (jsTrim opt).toList.length < (jsTrim best).toList.length then opt else best) c)

/-- Room-option selection from `fillRoomsField`: exact trimmed match, then
bidirectional containment. -/
def findRoomOption (optionTexts : List String) (roomText : String) : Option String :=
  match optionTexts.find? (fun t => jsTrim t == roomText) with
  | some t => some t
  | none =>
    optionTexts.find? (fun t => jsIncludes (jsTrim t) roomText || jsIncludes roomText (jsTrim t))

/-! ## Bounded retry loops (claims C8, C9) -/

/-- Result of one retry-driven fill step. -/
inductive RetryOutcome where
  | success (tick : ℕ)
  | exhausted
deriving DecidableEq, Repr

/-- Bookkeeping of a retry run: how it ended, how many locate attempts ran,
how many times the failure path was invoked, and the total scheduled delay. -/
structure RetryRun where
  outcome : RetryOutcome
  attempts : ℕ
  failureCalls : ℕ
  totalDelayMs : ℕ
deriving DecidableEq, Repr

/-- `maxRetries` of `trySelectCategory`. -/
def categoryMaxRetries : ℕ := 3

/-- The fixed per-retry delay of `trySelectCategory`. -/
def categoryRetryDelayMs : ℕ := 500

/-- The retry loop of `trySelectCategory`: locate, click on success,
reschedule while retries remain, error (throw) once when exhausted.  `found`
is the locate oracle per scheduler tick. -/
def trySelectCategoryLoop (found : ℕ → Bool) (tick retryCount : ℕ) : RetryRun :=
  if found tick then
    ⟨.success tick, retryCount + 1, 0, retryCount * categoryRetryDelayMs⟩
  else if h : retryCount < categoryMaxRetries then
    trySelectCategoryLoop found (tick + 1) (retryCount + 1)
  else
    ⟨.exhausted, retryCount + 1, 1, retryCount * categoryRetryDelayMs⟩
termination_by categoryMaxRetries + 1 - retryCount
decreasing_by simp [categoryMaxRetries] at *; omega

/-- `trySelectCategory` started as in `autofillListingForm` (first attempt at
tick 0 with no retries consumed). -/
def trySelectCategoryRun (found : ℕ → Bool) : RetryRun :=
  trySelectCategoryLoop found 0 0

/-- `maxRetries` of `fillBathroomFieldWithRetry`. -/
def bathroomMaxRetries : ℕ := 5

/-- `retryDelay` of `fillBathroomFieldWithRetry`. -/
def bathroomRetryDelayMs : ℕ := 500

/-- The retry loop of `fillBathroomFieldWithRetry`: probe for the bathroom
container; fill when it is found *or* the budget is exhausted (the fill call
then logs the single failure), else reschedule. -/
def fillBathroomRetryLoop (containerFound : ℕ → Bool) (tick retryCount : ℕ) : RetryRun :=
  if h : containerFound tick ∨ retryCount ≥ bathroomMaxRetries then
    ⟨if containerFound tick then .success tick else .exhausted,
     retryCount + 1,
     if containerFound tick then 0 else 1,
     retryCount * bathroomRetryDelayMs⟩
  else
    fillBathroomRetryLoop containerFound (tick + 1) (retryCount + 1)
termination_by bathroomMaxRetries + 1 - retryCount
decreasing_by simp [bathroomMaxRetries] at *; omega

/-- `fillBathroomFieldWithRetry` started at tick 0. -/
def fillBathroomRetryRun (containerFound : ℕ → Bool) : RetryRun :=
  fillBathroomRetryLoop containerFound 0 0

/-! ## Deal-type normalization and selection (`selectDealType`, claim C9) -/

/-- The normalization step of `selectDealType`: default a missing deal type
to "იყიდება", then map any phrasing containing one of the canonical stems to
the canonical token (qualifiers such as "ქირავდება დღიურად" reduce to
"ქირავდება"). -/
def normalizeDealType (scrapedDealType : Option String) : String :=
  let dealType :=
    match scrapedDealType with
    | some s => if s = "" then "იყიდება" else s
    | none => "იყიდება"
  if jsIncludes dealType "ქირავდება" then "ქირავდება"
  else if jsIncludes dealType "იყიდება" then "იყიდება"
  else if jsIncludes dealType "გირავდება" then "გირავდება"
  else dealType

/-- Outcome of `selectDealType`: primary token clicked, alternate token
clicked (logged as a substitution), or a thrown error. -/
inductive DealSelectOutcome where
  | selected (token : String)
  | substituted (token : String)
  | failed (message : String)
deriving DecidableEq, Repr

/-- The alternate-token list of `selectDealType`'s failure path. -/
def dealTypeAlternatives (dealType : String) : List String :=
  if dealType = "იყიდება" then ["ქირავდება"] else ["იყიდება"]

/-- `maxRetries` of `selectDealType`. -/
def dealTypeMaxRetries : ℕ := 3

/-- The retry loop of `selectDealType`: locate the primary token, reschedule
while retries remain; on exhaustion try the alternatives in order and click
the first that is found (a logged substitution), else throw. -/
def selectDealTypeLoop (find : ℕ → String → Bool) (dealType : String)
    (tick retryCount : ℕ) : DealSelectOutcome :=
  if find tick dealType then .selected dealType
  else if h : retryCount < dealTypeMaxRetries then
    selectDealTypeLoop find dealType (tick + 1) (retryCount + 1)
  else
    match (dealTypeAlternatives dealType).find? (fun alt => find tick alt) with
    | some alt => .substituted alt
    | none => .failed ("Could not find deal type element " ++ dealType)
termination_by dealTypeMaxRetries + 1 - retryCount
decreasing_by simp [dealTypeMaxRetries] at *; omega

/-- `selectDealType` run on a scraped deal type. -/
def selectDealTypeRun (find : ℕ → String → Bool) (scrapedDealType : Option String) :
    DealSelectOutcome :=
  selectDealTypeLoop find (normalizeDealType scrapedDealType) 0 0

/-! ## The DOM model and the extractor (`scrapeListingFromDom`, claim C2)

`document.querySelector` and the structural container searches of the
collectors are abstracted as oracle fields of a `Dom` record: `query` answers
a selector with "throws" / "no element" / "element with this textContent",
and each repeated-section collector receives the per-item nodes its query
loop would visit (`none` when the heading, container or grid is absent).
Everything done *with* those answers — selector normalization, falsy checks,
trimming, desktop/mobile fallbacks, numeric conversion, deduplication and
record assembly — is translated from the source. -/

/-- Outcome of `document.querySelector(sel)`: a thrown syntax error (caught
by the scraper), no match, or the first match's `textContent`. -/
inductive QueryRes where
  | invalid
  | missing
  | found (textContent : String)
deriving DecidableEq

/-- An `img` node of the gallery container: the attributes the scraper
probes, `none` for an absent attribute. -/
structure ImgNode where
  currentSrc : Option String
  srcAttr : Option String
  dataSrc : Option String
  dataLazy : Option String
  dataSrcset : Option String
  srcProp : Option String

/-- One grid item of the "დამატებითი პარამეტრები" section: the header span's
text and the desktop / mobile / fallback value nodes (absent node = `none`). -/
structure ParamItem where
  header : Option String
  desktopValue : Option String
  mobileValue : Option String
  fallbackValue : Option String

/-- One item of the main property-details grid. -/
structure DetailItem where
  label : Option String
  desktopValue : Option String
  mobileValue : Option String
  fallbackValue : Option String

/-- The abstract page. -/
structure Dom where
  query : String → QueryRes
  bodyText : String
  gallery : Option (List ImgNode)
  additionalParamsItems : Option (List ParamItem)
  furnitureValues : Option (List (Option String))
  detailItems : Option (List DetailItem)
  shortDescription : Option String
  resolveUrl : String → Option String
  href : String
  now : String

/-- Does a selector contain the escaped-bracket sequences `\[` or `\]`? -/
def containsEscapedBracket (l : List Char) : Bool :=
  listIsInfix ['\\', '['] l || listIsInfix ['\\', ']'] l

/-- `[\w-]`, the class of the Tailwind-conversion regex. -/
def tailwindWordChar (c : Char) : Bool := jsWordChar c ∨ c = '-'

/-- The global replace `/\.([\w-]+)\\:([\w-]+)/g` →
`[class*="p1:p2"]` of `normalizeSelector`. -/
def twReplaceAux (fuel : ℕ) (l : List Char) : List Char :=
  match fuel, l with
  | 0, rest => rest
  | _, [] => []
  | fuel + 1, c :: rest =>
    if c = '.' then
      let p1 := rest.takeWhile tailwindWordChar
      let r1 := rest.dropWhile tailwindWordChar
      match r1 with
      | '\\' :: ':' :: r2 =>
        let p2 := r2.takeWhile tailwindWordChar
        if p1 ≠ [] ∧ p2 ≠ [] then
          "[class*=\"".toList ++ p1 ++ ':' :: p2 ++ "\"]".toList ++
            twReplaceAux fuel (r2.dropWhile tailwindWordChar)
        else c :: twReplaceAux fuel rest
      | _ => c :: twReplaceAux fuel rest
    else c :: twReplaceAux fuel rest

/-- `normalizeSelector` from the scraper: pass a falsy selector through, skip
(null) any selector with escaped bracket classes, convert escaped Tailwind
`md\:x` classes to attribute-contains selectors. -/
def normalizeSelector (selector : String) : Option String :=
  if selector = "" then some selector
  else if containsEscapedBracket selector.toList then none
  else some ((twReplaceAux selector.toList.length selector.toList).asString)

/-- `getFirstTextMatch` from the scraper: first selector whose normalized
form is usable, queries without throwing and hits an element with non-empty
`textContent`; the text is returned trimmed. -/
def getFirstTextMatch (dom : Dom) : List String → Option String
  | [] => none
  | selector :: rest =>
    if selector = "" then getFirstTextMatch dom rest
    else
      match normalizeSelector selector with
      | none => getFirstTextMatch dom rest
      | some ns =>
        if ns = "" then getFirstTextMatch dom rest
        else
          match dom.query ns with
          | .invalid => getFirstTextMatch dom rest
          | .missing => getFirstTextMatch dom rest
          | .found text =>
            if text = "" then getFirstTextMatch dom rest else some (jsTrim text)

/-- The hardcoded description fallback selectors. -/
def FALLBACK_DESCRIPTION_SELECTORS : List String :=
  [".description", ".listing-description", "[data-testid='listing-description']"]

/-- The hardcoded fallback selector table of the scraper. -/
def FALLBACK_SELECTORS : List (String × List String) :=
  [("title", ["h1", "h1[class*=\"font\"]", ".font-tbcx-bold"]),
   ("title_ge", ["h1", "h1[class*=\"font\"]", ".font-tbcx-bold"]),
   ("address", ["[itemprop=\"address\"]",
     ".flex.flex-col.items-start .flex.items-center span:last-child"]),
   ("area", [".area", ".property-area", "[data-area]"]),
   ("rooms", [".rooms", "[data-rooms]"]),
   ("bedroom", [".bedroom", "[data-bedroom]"]),
   ("floor", [".floor", "[data-floor]"]),
   ("description", FALLBACK_DESCRIPTION_SELECTORS),
   ("status", [".status", "[data-status]"]),
   ("condition", [".condition", "[data-condition]"]),
   ("type_of_project", [".type", "[data-type]"]),
   ("bathrooms", [".bathrooms", "[data-bathrooms]"]),
   ("height", [".height", "[data-height]"]),
   ("heating", [".heating", "[data-heating]"]),
   ("hot_water", [".hot-water", "[data-hot-water]"]),
   ("living", [".living", "[data-living]"]),
   ("gas", [".gas", "[data-gas]"]),
   ("internet", [".internet", "[data-internet]"]),
   ("tv", [".tv", "[data-tv]"]),
   ("elevator", [".elevator", "[data-elevator]"]),
   ("lift", [".lift", "[data-lift]"]),
   ("telephone", [".telephone", "[data-telephone]", "[data-phone]"])]

/-- JavaScript object assignment `obj[k] = v` on an association list:
overwrite in place, else append. -/
def objSet {α : Type} (m : List (String × α)) (k : String) (v : α) :
    List (String × α) :=
  if m.any (fun p => p.1 == k) then
    m.map (fun p => if p.1 == k then (k, v) else p)
  else m ++ [(k, v)]

/-- `scrapeMappedAttribute`: the CSV-mapped selector first (its result used
only when truthy), then the fallback selector list. -/
def scrapeMappedAttribute (dom : Dom) (mappings : List (String × String))
    (attributeName : String) : Option String :=
  let mapped : Option String :=
    match mappings.lookup attributeName with
    | some sel =>
      if sel = "" then none
      else
        match getFirstTextMatch dom [sel] with
        | some value => if value = "" then none else some value
        | none => none
    | none => none
  match mapped with
  | some value => some value
  | none =>
    match FALLBACK_SELECTORS.lookup attributeName with
    | some fallbackSelectors => getFirstTextMatch dom fallbackSelectors
    | none => none

/-- JS truthiness of a string-or-absent value. -/
def jsTruthy (o : Option String) : Bool :=
  match o with
  | some s => s ≠ ""
  | none => false

/-- JavaScript `a || b` on string-or-absent values. -/
def jsOrStr (a b : Option String) : Option String := if jsTruthy a then a else b

/-- `"a b".split(/\s+/)[0]` (empty when the string starts with whitespace,
as in JS). -/
def splitWsHead (s : String) : String :=
  match s.toList with
  | [] => ""
  | c :: _ =>
    if jsIsSpace c then "" else (s.toList.takeWhile (fun x => ¬ jsIsSpace x)).asString

/-- The `rawSource` chain of `collectGalleryImages`. -/
def imgRawSource (img : ImgNode) : Option String :=
  jsOrStr img.currentSrc (jsOrStr img.srcAttr (jsOrStr img.dataSrc (jsOrStr img.dataLazy
    (jsOrStr (img.dataSrcset.map splitWsHead) img.srcProp))))

/-- `toAbsoluteUrl`: falsy in, `null` out; otherwise URL resolution against
the page location (`none` models the caught constructor throw). -/
def toAbsoluteUrl (dom : Dom) (v : Option String) : Option String :=
  match v with
  | none => none
  | some s => if s = "" then none else dom.resolveUrl s

/-- `collectGalleryImages`: resolve each image's source, deduplicate by
absolute URL keeping first-seen order. -/
def collectGalleryImages (dom : Dom) : List String :=
  match dom.gallery with
  | none => []
  | some imgs =>
    imgs.foldl (fun acc img =>
      match toAbsoluteUrl dom (imgRawSource img) with
      | some url => if acc.contains url then acc else acc ++ [url]
      | none => acc) []

/-- `collectAdditionalParameters`: per grid item, header text (skipped when
the span is missing or blank), then the desktop / mobile / fallback value
node, stored trimmed when non-empty. -/
def collectAdditionalParameters (dom : Dom) : List (String × String) :=
  match dom.additionalParamsItems with
  | none => []
  | some items =>
    items.foldl (fun acc item =>
      match item.header with
      | none => acc
      | some rawHeader =>
        let header := jsTrim rawHeader
        if header = "" then acc
        else
          match item.desktopValue <|> item.mobileValue <|> item.fallbackValue with
          | none => acc
          | some rawValue =>
            let value := jsTrim rawValue
            if value = "" then acc else objSet acc header value) []

/-- `collectFurnitureItems`: push each item's trimmed value when present. -/
def collectFurnitureItems (dom : Dom) : List String :=
  match dom.furnitureValues with
  | none => []
  | some items =>
    items.foldl (fun acc v? =>
      match v? with
      | none => acc
      | some rawValue =>
        let value := jsTrim rawValue
        if value = "" then acc else acc ++ [value]) []

/-- The labels converted to numbers by `collectPropertyDetails`. -/
def numericDetailFields : List String := ["ოთახი", "საძინებელი", "ფართი"]

/-- `collectPropertyDetails`: per grid item, the label span (skipped when
missing or blank), the desktop / mobile / fallback value, numeric conversion
for the numeric labels. -/
def collectPropertyDetails (dom : Dom) : List (String × JsVal) :=
  match dom.detailItems with
  | none => []
  | some items =>
    items.foldl (fun acc item =>
      match item.label with
      | none => acc
      | some rawLabel =>
        let label := jsTrim rawLabel
        if label = "" then acc
        else
          match item.desktopValue <|> item.mobileValue <|> item.fallbackValue with
          | none => acc
          | some rawValue =>
            let value := jsTrim rawValue
            if value = "" then acc
            else if numericDetailFields.contains label then
              objSet acc label (parseNumericDetail value)
            else objSet acc label (.str value)) []

/-- The price selectors of the scraper. -/
def priceSelectors : List String :=
  ["[data-testid='listing-price']", ".text-2xl.font-tbcx-bold"]

/-- The scraped listing record (the JS object literal returned by
`scrapeListingFromDom`; every field is always present). -/
structure ListingRecord where
  scrapedAt : String
  url : String
  propertyDetails : List (String × JsVal)
  images : List String
  furniture : List String
  additionalParameters : List (String × String)
  dealType : Option String
deriving DecidableEq

/-- `scrapeListingFromDom`: run every collector, add the transformed address,
the parsed price and the short description to the details when they resolve
to truthy values, and assemble the full record. -/
def scrapeListingFromDom (dom : Dom) (mappings : List (String × String)) :
    ListingRecord :=
  let galleryImages := collectGalleryImages dom
  let additionalParameters := collectAdditionalParameters dom
  let furnitureItems := collectFurnitureItems dom
  let propertyDetails := collectPropertyDetails dom
  let dealType := detectDealType dom.bodyText
  let shortDescription := dom.shortDescription
  let propertyDetails :=
    match scrapeMappedAttribute dom mappings "address" with
    | some address =>
      if address = "" then propertyDetails
      else objSet propertyDetails "მისამართი" (.str (transformAddress address))
    | none => propertyDetails
  let propertyDetails :=
    match getFirstTextMatch dom priceSelectors with
    | some priceText =>
      if priceText = "" then propertyDetails
      else
        match parsePriceText priceText with
        | some priceNumber => objSet propertyDetails "ფასი" (.num priceNumber)
        | none => propertyDetails
    | none => propertyDetails
  let propertyDetails :=
    match shortDescription with
    | some sd =>
      if sd = "" then propertyDetails
      else objSet (objSet propertyDetails "მოკლე აღწერა" (.str sd)) "shortDescription" (.str sd)
    | none => propertyDetails
  { scrapedAt := dom.now
    url := dom.href
    propertyDetails := propertyDetails
    images := galleryImages
    furniture := furnitureItems
    additionalParameters := additionalParameters
    dealType := dealType }

/-- A page on which every query misses and every section is absent. -/
def emptyDom : Dom :=
  { query := fun _ => .missing
    bodyText := ""
    gallery := none
    additionalParamsItems := none
    furnitureValues := none
    detailItems := none
    shortDescription := none
    resolveUrl := fun _ => none
    href := "https://example.invalid/listing"
    now := "2026-01-01T00:00:00.000Z" }

/-! ## The mapping loader (`parseCSVLine` / `loadMappings`, claim C10) -/

/-- Opening brackets tracked by the CSV parser (parenthesis, square bracket,
curly brace). -/
def openBracketChar (c : Char) : Bool :=
  c = '(' ∨ c = '[' ∨ c = Char.ofNat 123

/-- Closing brackets tracked by the CSV parser. -/
def closeBracketChar (c : Char) : Bool :=
  c = ')' ∨ c = ']' ∨ c = Char.ofNat 125

/-- The character loop of `parseCSVLine`: quoted fields, doubled quotes,
backslash escapes, and bracket-depth tracking so commas inside `rgb(...)`
style selectors do not split fields.  The JS `bracketDepth` is reset to 0
whenever it would go negative, which `ℕ` subtraction reproduces. -/
def parseCSVLineAux (fuel : ℕ) (l : List Char) (prev : Option Char) (fields : List String)
    (current : List Char) (insideQuotes : Bool) (bracketDepth : ℕ) : List String :=
  match fuel, l with
  | _, [] => fields ++ [jsTrim current.asString]
  | 0, _ :: _ => fields ++ [jsTrim current.asString]
  | fuel + 1, c :: rest =>
    let isEscaped := prev = some '\\'
    if c = '"' ∧ ¬isEscaped then
      if insideQuotes then
        if rest.head? = some '"' then
          parseCSVLineAux fuel rest.tail (some '"') fields (current ++ ['"']) insideQuotes
            bracketDepth
        else parseCSVLineAux fuel rest (some c) fields (current ++ [c]) false bracketDepth
      else parseCSVLineAux fuel rest (some c) fields (current ++ [c]) true bracketDepth
    else if c = ',' ∧ ¬insideQuotes ∧ bracketDepth = 0 ∧ ¬isEscaped then
      parseCSVLineAux fuel rest (some c) (fields ++ [jsTrim current.asString]) [] insideQuotes
        bracketDepth
    else
      let newDepth :=
        if ¬insideQuotes ∧ ¬isEscaped then
          if openBracketChar c then bracketDepth + 1
          else if closeBracketChar c then bracketDepth - 1
          else bracketDepth
        else bracketDepth
      parseCSVLineAux fuel rest (some c) fields (current ++ [c]) insideQuotes newDepth

/-- `parseCSVLine` from the mapping loader (the fuel, one unit per character,
dominates the loop's step count, so the zero-fuel row is never reached). -/
def parseCSVLine (line : String) : List String :=
  parseCSVLineAux line.toList.length line.toList none [] [] false 0

/-- The external mapping resource: absent (the fetch fails or the response is
not ok) or present with its text. -/
inductive MappingResource where
  | missing
  | content (text : String)

/-- `loadMappings` from the mapping loader: an `Except` models the
promise — `.error` is a thrown/rejected error reaching the caller, `.ok` the
parsed attribute-to-selector mapping. -/
def loadMappings : MappingResource → Except String (List (String × String))
  | .missing => .error "Failed to load mappings.csv"
  | .content text =>
    let lines := ((splitOnChar '\n' (jsTrim text).toList).map List.asString).filter
      (fun line => jsTrim line ≠ "")
    if lines.length < 2 then
      .error "mappings.csv must have at least 2 lines (header and data)"
    else
      let headers := parseCSVLine (lines.getD 0 "")
      let selectors := parseCSVLine (lines.getD 1 "")
      .ok ((List.range headers.length).foldl (fun acc index =>
        let header := headers.getD index ""
        let selector := selectors.getD index ""
        if header ≠ "" ∧ selector ≠ "" then objSet acc header selector else acc) [])

/-- The caller's guard (`executeScrapeOnActiveTab` in the popup): start from
an empty mapping, replace it by `loadMappings`' result, and *catch* any error,
leaving the empty mapping in place so scraping proceeds with the built-in
fallback selectors. -/
def effectiveMappings (r : MappingResource) : List (String × String) :=
  match loadMappings r with
  | .ok mappings => mappings
  | .error _ => []

/-- Whether an `Except` result is a thrown error. -/
def exceptThrows {ε α : Type} : Except ε α → Bool
  | .error _ => true
  | .ok _ => false

theorem mem_replaceFirstChar {a b c : Char} {l : List Char}
    (h : c ∈ replaceFirstChar a b l) : c = b ∨ c ∈ l := by
  induction l with
  | nil => simp [replaceFirstChar] at h
  | cons x xs ih =>
    simp only [replaceFirstChar] at h
    split_ifs at h with hx
    · rcases List.mem_cons.mp h with h1 | h1
      · exact Or.inl h1
      · exact Or.inr (List.mem_cons_of_mem x h1)
    · rcases List.mem_cons.mp h with h1 | h1
      · exact Or.inr (h1 ▸ List.mem_cons_self x xs)
      · rcases ih h1 with h2 | h2
        · exact Or.inl h2
        · exact Or.inr (List.mem_cons_of_mem x h2)

theorem priceTextBranches_congr (α β : Type) (f : List Char → Option α)
    (g : List Char → Option β) (h : α → β)
    (hfg : ∀ l, (∀ c ∈ l, isPriceChar c = true) → (f l).map h = g l) (text : String) :
    (priceTextBranches α f text).map h = priceTextBranches β g text := by
  have hclean : ∀ c ∈ cleanPriceString text, isPriceChar c = true := by
    intro c hc
    exact List.of_mem_filter hc
  have hremove : ∀ d, ∀ c ∈ removeAllChar d (cleanPriceString text), isPriceChar c = true := by
    intro d c hc
    exact hclean c (List.mem_of_mem_filter hc)
  have hreplace : ∀ c ∈ replaceFirstChar ',' '.' (cleanPriceString text),
      isPriceChar c = true := by
    intro c hc
    rcases mem_replaceFirstChar hc with h1 | h1
    · rw [h1]; decide
    · exact hclean c h1
  have hreplace2 : ∀ c ∈ replaceFirstChar ',' '.' (removeAllChar '.' (cleanPriceString text)),
      isPriceChar c = true := by
    intro c hc
    rcases mem_replaceFirstChar hc with h1 | h1
    · rw [h1]; decide
    · exact hremove '.' c h1
  unfold priceTextBranches
  dsimp only
  split_ifs <;>
    first
      | rfl
      | exact hfg _ hclean
      | exact hfg _ (hremove ',')
      | exact hfg _ (hremove '.')
      | exact hfg _ hreplace
      | exact hfg _ hreplace2

theorem parsePriceText_eq_shape (text : String) :
    parsePriceText text = (parsePriceTextShape text).map ratOfShape := by
  unfold parsePriceText parsePriceTextShape
  rw [← priceTextBranches_congr FloatShape ℚ jsParseFloatShape jsParseFloatList ratOfShape]
  intro l _
  rfl

theorem isPriceChar_cases {c : Char} (h : isPriceChar c = true) :
    c.isDigit = true ∨ c = '.' ∨ c = ',' := by
  simpa [isPriceChar, jsIsDigit] using h

theorem isPriceChar_not_space {c : Char} (h : isPriceChar c = true) :
    jsIsSpace c = false := by
  rcases isPriceChar_cases h with hd | rfl | rfl
  · cases hs : jsIsSpace c
    · rfl
    · exfalso
      simp only [jsIsSpace, decide_eq_true_eq] at hs
      rcases hs with rfl | rfl | rfl | rfl | rfl | rfl | rfl | rfl <;>
        exact absurd hd (by decide)
  · decide
  · decide

theorem isPriceChar_ne {c : Char} (h : isPriceChar c = true) :
    c ≠ '+' ∧ c ≠ '-' ∧ c ≠ 'e' ∧ c ≠ 'E' := by
  rcases isPriceChar_cases h with hd | rfl | rfl
  · refine ⟨?_, ?_, ?_, ?_⟩ <;> rintro rfl <;> exact absurd hd (by decide)
  · decide
  · decide

theorem expFactor_zero_of_price (l : List Char)
    (h : ∀ c ∈ l, isPriceChar c = true) : expFactor l = 0 := by
  unfold expFactor
  cases l with
  | nil => simp
  | cons c rest =>
    obtain ⟨_, _, h3, h4⟩ := isPriceChar_ne (h c (List.mem_cons_self c rest))
    simp [h3, h4]

theorem ratOfShape_false_zero (i f : List Char) :
    ratOfShape ⟨false, i, f, 0⟩ = (digitsVal i : ℚ) + fracVal f := by
  have h0 : pow10Z 0 = 1 := by
    show ((10 ^ 0 : ℕ) : ℚ) = 1
    norm_num
  simp [ratOfShape, h0]

theorem jsParseFloatList_eq_simpleParse (l : List Char)
    (h : ∀ c ∈ l, isPriceChar c = true) :
    jsParseFloatList l = simpleParse l := by
  have hdrop : l.dropWhile jsIsSpace = l := by
    cases l with
    | nil => rfl
    | cons c rest =>
      rw [List.dropWhile_cons,
        isPriceChar_not_space (h c (List.mem_cons_self c rest))]
      simp
  have hr1mem : ∀ c ∈ l.dropWhile jsIsDigit, isPriceChar c = true := by
    intro c hc
    exact h c ((List.dropWhile_sublist jsIsDigit).mem hc)
  cases hl : l with
  | nil => rfl
  | cons c0 rest0 =>
    rw [← hl]
    have hc0 : isPriceChar c0 = true := h c0 (hl ▸ List.mem_cons_self c0 rest0)
    obtain ⟨h1, h2, _, _⟩ := isPriceChar_ne hc0
    have hhead : l.head? = some c0 := by rw [hl]; rfl
    have hsign : ¬(l.head? = some '-' ∨ l.head? = some '+') := by
      rw [hhead]
      rintro (hs | hs)
      · exact h2 (by simpa using hs)
      · exact h1 (by simpa using hs)
    have hnegf : decide (l.head? = some '-') = false :=
      decide_eq_false (fun hs => h2 (by rw [hhead] at hs; simpa using hs))
    unfold jsParseFloatList jsParseFloatShape simpleParse
    dsimp only
    rw [hdrop, if_neg hsign, hnegf]
    by_cases hdot : (l.dropWhile jsIsDigit).head? = some '.'
    · rw [if_pos hdot, if_pos hdot]
      have htailmem : ∀ c ∈ (l.dropWhile jsIsDigit).tail, isPriceChar c = true := by
        intro c hc
        exact hr1mem c (List.mem_of_mem_tail hc)
      have hr3 : ∀ c ∈ ((l.dropWhile jsIsDigit).tail).dropWhile jsIsDigit,
          isPriceChar c = true := by
        intro c hc
        exact htailmem c ((List.dropWhile_sublist jsIsDigit).mem hc)
      rw [expFactor_zero_of_price _ hr3]
      by_cases hemp : (l.takeWhile jsIsDigit).isEmpty = true ∧
          (((l.dropWhile jsIsDigit).tail).takeWhile jsIsDigit).isEmpty = true
      · rw [if_pos hemp, if_pos hemp]
        rfl
      · rw [if_neg hemp, if_neg hemp]
        rw [Option.map_some']
        rw [ratOfShape_false_zero]
    · rw [if_neg hdot, if_neg hdot]
      by_cases hemp : (l.takeWhile jsIsDigit).isEmpty = true
      · rw [if_pos hemp, if_pos hemp]
        rfl
      · rw [if_neg hemp, if_neg hemp]
        rw [expFactor_zero_of_price _ hr1mem, Option.map_some']
        rw [ratOfShape_false_zero]
        have : fracVal [] = 0 := by
          simp [fracVal, digitsVal]
        rw [this, add_zero]

theorem toList_asString (l : List Char) : l.asString.toList = l := rfl

theorem listIsInfix_subset {needle hay : List Char}
    (h : listIsInfix needle hay = true) : ∀ c ∈ needle, c ∈ hay := by
  induction hay with
  | nil =>
    simp only [listIsInfix, List.isEmpty_iff] at h
    simp [h]
  | cons x rest ih =>
    simp only [listIsInfix, Bool.or_eq_true] at h
    rcases h with h | h
    · have hpre : needle <+: x :: rest := by
        exact List.isPrefixOf_iff_prefix.mp h
      exact fun c hc => hpre.subset hc
    · exact fun c hc => List.mem_cons_of_mem x (ih h c hc)

theorem dropWhile_eq_self_of {p : Char → Bool} {l : List Char}
    (h : ∀ c ∈ l, p c = false) : l.dropWhile p = l := by
  cases l with
  | nil => rfl
  | cons c rest =>
    rw [List.dropWhile_cons, h c (List.mem_cons_self c rest)]
    simp

theorem trimList_eq_self_of {l : List Char}
    (h : ∀ c ∈ l, jsIsSpace c = false) : trimList l = l := by
  unfold trimList
  rw [dropWhile_eq_self_of h]
  rw [dropWhile_eq_self_of (fun c hc => h c (List.mem_reverse.mp hc))]
  exact List.reverse_reverse l

theorem replaceFirstChar_eq_self_of {a b : Char} {l : List Char}
    (h : ∀ x ∈ l, x ≠ a) : replaceFirstChar a b l = l := by
  induction l with
  | nil => rfl
  | cons x rest ih =>
    unfold replaceFirstChar
    rw [if_neg (h x (List.mem_cons_self x rest))]
    rw [ih (fun y hy => h y (List.mem_cons_of_mem x hy))]

/-- C3: deal-type detection scans the fixed phrase list longest-first; a page
whose text contains "ქირავდება დღიურად" always resolves to that full phrase
(never to its prefix "ქირავდება"), and a page containing none of the fixed
phrases yields `null`. -/
theorem c3_deal_type_longest_match :
    (∀ pageText : String, jsIncludes pageText "ქირავდება დღიურად" = true →
      detectDealType pageText = some "ქირავდება დღიურად") ∧
    (∀ pageText : String, (∀ d ∈ dealTypePhrases, jsIncludes pageText d = false) →
      detectDealType pageText = none) := by
  constructor
  · intro t h
    unfold detectDealType dealTypePhrases
    exact List.find?_cons_of_pos _ h
  · intro t h
    exact List.find?_eq_none.mpr (fun d hd => by simp [h d hd])

theorem c3_deal_type_witness :
    detectDealType "განცხადება: ქირავდება დღიურად, ორი ოთახი" = some "ქირავდება დღიურად" ∧
    detectDealType "სრულიად სხვა ტექსტი" = none :=
  ⟨c3_deal_type_longest_match.1 _ (by decide),
   c3_deal_type_longest_match.2 _ (by decide)⟩

theorem parsePriceText_eval {s : String} {i f : List Char} {q : ℚ}
    (hshape : parsePriceTextShape s = some ⟨false, i, f, 0⟩)
    (hval : (digitsVal i : ℚ) + fracVal f = q) :
    parsePriceText s = some q := by
  rw [parsePriceText_eq_shape, hshape, Option.map_some', ratOfShape_false_zero, hval]

/-- C1 counterexample: on the price string `"1,234,56"` (two commas, a
2-digit final group) the claimed rule makes the commas thousands separators
(there is not exactly one comma group) and yields 123456, but the code turns
only the first comma into a decimal point and `parseFloat` stops at the
second comma, yielding 1.234.  The claimed disambiguation rule is therefore
not the one the parser implements. -/
theorem c1_price_rule_counterexample :
    parsePriceText "1,234,56" = some ((617 : ℚ) / 500) ∧
    claimPriceRule "1,234,56" = some ((123456 : ℚ)) ∧
    parsePriceText "1,234,56" ≠ claimPriceRule "1,234,56" := by
  have hcode : parsePriceText "1,234,56" = some ((617 : ℚ) / 500) := by
    refine @parsePriceText_eval "1,234,56" ['1'] ['2', '3', '4'] _ (by decide) ?_
    have d1 : digitsVal ['1'] = 1 := by decide
    have d2 : digitsVal ['2', '3', '4'] = 234 := by decide
    rw [fracVal, d1, d2]
    norm_num
  have hclaim : claimPriceRule "1,234,56" = some ((123456 : ℚ)) := by
    have : claimPriceRule "1,234,56" = some ((123456 : ℕ) : ℚ) := by decide
    rw [this]
    norm_num
  refine ⟨hcode, hclaim, ?_⟩
  rw [hcode, hclaim]
  intro hcontra
  have := Option.some.inj hcontra
  norm_num at this

/-- C1 (amended): the price parser follows the source's separator rule — with
both separators, the right-most decides, but a comma decimal mark is applied
only to the first comma and reading stops at any later comma; comma-only
input is thousands-grouped when the last group has exactly 3 digits and
there are at least two groups, decimal (first comma) when the last group has
at most 2 digits regardless of the number of groups, else commas are
stripped; dot-only input is thousands-grouped under the same 3-digit rule and
otherwise read with the first dot as decimal.  The four quoted examples
evaluate as the claim states. -/
theorem c1_price_parser_amended :
    (∀ s : String, parsePriceText s = amendedPriceRule s) ∧
    parsePriceText "105,000.50" = some ((105000.50 : ℚ)) ∧
    parsePriceText "105.000,50" = some ((105000.50 : ℚ)) ∧
    parsePriceText "105,50" = some ((105.50 : ℚ)) ∧
    parsePriceText "105,000" = some ((105000 : ℚ)) := by
  refine ⟨?_, ?_, ?_, ?_, ?_⟩
  · intro s
    have h := priceTextBranches_congr ℚ ℚ jsParseFloatList simpleParse id
      (fun l hl => by simpa using jsParseFloatList_eq_simpleParse l hl) s
    simpa using h
  · refine @parsePriceText_eval "105,000.50" ['1', '0', '5', '0', '0', '0'] ['5', '0'] _ (by decide) ?_
    have d1 : digitsVal ['1', '0', '5', '0', '0', '0'] = 105000 := by decide
    have d2 : digitsVal ['5', '0'] = 50 := by decide
    rw [fracVal, d1, d2]
    norm_num
  · refine @parsePriceText_eval "105.000,50" ['1', '0', '5', '0', '0', '0'] ['5', '0'] _ (by decide) ?_
    have d1 : digitsVal ['1', '0', '5', '0', '0', '0'] = 105000 := by decide
    have d2 : digitsVal ['5', '0'] = 50 := by decide
    rw [fracVal, d1, d2]
    norm_num
  · refine @parsePriceText_eval "105,50" ['1', '0', '5'] ['5', '0'] _ (by decide) ?_
    have d1 : digitsVal ['1', '0', '5'] = 105 := by decide
    have d2 : digitsVal ['5', '0'] = 50 := by decide
    rw [fracVal, d1, d2]
    norm_num
  · refine @parsePriceText_eval "105,000" ['1', '0', '5', '0', '0', '0'] [] _ (by decide) ?_
    have d1 : digitsVal ['1', '0', '5', '0', '0', '0'] = 105000 := by decide
    rw [fracVal, d1]
    norm_num [digitsVal]

theorem natDigitChar_isDigit (n : ℕ) : (natDigitChar n).isDigit = true := by
  unfold natDigitChar
  have h : n % 10 < 10 := Nat.mod_lt _ (by norm_num)
  interval_cases h : n % 10 <;> decide

theorem natDigitsAux_isDigit (fuel n : ℕ) :
    ∀ c ∈ natDigitsAux fuel n, c.isDigit = true := by
  induction fuel generalizing n with
  | zero => intro c hc; simp [natDigitsAux] at hc
  | succ fuel ih =>
    intro c hc
    unfold natDigitsAux at hc
    split_ifs at hc
    · rcases List.mem_singleton.mp hc with rfl
      exact natDigitChar_isDigit n
    · rcases List.mem_append.mp hc with h1 | h1
      · exact ih (n / 10) c h1
      · rcases List.mem_singleton.mp h1 with rfl
        exact natDigitChar_isDigit (n % 10)

theorem natDigits_isDigit (n : ℕ) : ∀ c ∈ natDigits n, c.isDigit = true :=
  natDigitsAux_isDigit (n + 1) n

/-- The output alphabet of the number formatter. -/
theorem mem_jsNumToString {q : ℚ} {c : Char}
    (h : c ∈ (jsNumToString q).toList) :
    c.isDigit = true ∨ c = '-' ∨ c = '.' ∨ c = '/' := by
  have hnd : ∀ (n : ℕ), ∀ x ∈ natDigits n,
      x.isDigit = true ∨ x = '-' ∨ x = '.' ∨ x = '/' :=
    fun n x hx => Or.inl (natDigits_isDigit n x hx)
  have hpad : ∀ (k m : ℕ), ∀ x ∈ padDigits k m,
      x.isDigit = true ∨ x = '-' ∨ x = '.' ∨ x = '/' := by
    intro k m x hx
    rcases List.mem_append.mp hx with h1 | h1
    · rcases List.mem_replicate.mp h1 with ⟨_, rfl⟩
      exact Or.inl (by decide)
    · exact hnd m x h1
  have hsign : ∀ x ∈ (if q < 0 then ['-'] else ([] : List Char)),
      x.isDigit = true ∨ x = '-' ∨ x = '.' ∨ x = '/' := by
    split_ifs with hq
    · intro x hx
      rcases List.mem_singleton.mp hx with rfl
      exact Or.inr (Or.inl rfl)
    · intro x hx
      simp at hx
  unfold jsNumToString at h
  dsimp only at h
  by_cases hden : (|q|).den = 1
  · rw [if_pos hden, toList_asString] at h
    rcases List.mem_append.mp h with h1 | h1
    · exact hsign c h1
    · exact hnd _ c h1
  · rw [if_neg hden] at h
    rcases hde : decimalExponent (|q|).den with _ | k <;> rw [hde] at h <;>
      rw [toList_asString] at h
    · rcases List.mem_append.mp h with h1 | h1
      · rcases List.mem_append.mp h1 with h2 | h2
        · exact hsign c h2
        · exact hnd _ c h2
      · rcases List.mem_cons.mp h1 with rfl | h3
        · exact Or.inr (Or.inr (Or.inr rfl))
        · exact hnd _ c h3
    · rcases List.mem_append.mp h with h1 | h1
      · rcases List.mem_append.mp h1 with h2 | h2
        · exact hsign c h2
        · exact hnd _ c h2
      · rcases List.mem_cons.mp h1 with rfl | h3
        · exact Or.inr (Or.inr (Or.inl rfl))
        · exact hpad _ _ c h3

theorem isDigit_le_nine {c : Char} (h : c.isDigit = true) : c ≤ '9' := by
  simp only [Char.isDigit, Bool.and_eq_true, decide_eq_true_eq] at h
  exact h.2

theorem jsToLowerChar_of_numChar {c : Char}
    (h : c.isDigit = true ∨ c = '-' ∨ c = '.' ∨ c = '/') :
    jsToLowerChar c = c := by
  unfold jsToLowerChar
  rcases h with hd | rfl | rfl | rfl
  · rw [if_neg]
    rintro ⟨hA, _⟩
    exact absurd (le_trans hA (isDigit_le_nine hd)) (by decide)
  · rfl
  · rfl
  · rfl

/-- A needle containing a character outside the number alphabet never occurs
in the lower-cased string of a number. -/
theorem jsIncludes_num_false (q : ℚ) (needle : String) (c₀ : Char)
    (hc₀ : c₀ ∈ needle.toList)
    (hnot : ¬(c₀.isDigit = true ∨ c₀ = '-' ∨ c₀ = '.' ∨ c₀ = '/')) :
    jsIncludes (jsToLower (jsNumToString q)) needle = false := by
  cases hinc : jsIncludes (jsToLower (jsNumToString q)) needle
  · rfl
  · exfalso
    have hmem := listIsInfix_subset hinc c₀ hc₀
    rw [jsToLower, toList_asString] at hmem
    rcases List.mem_map.mp hmem with ⟨c₁, hc₁, hlow⟩
    have halpha := mem_jsNumToString hc₁
    rw [jsToLowerChar_of_numChar halpha] at hlow
    exact hnot (hlow ▸ halpha)

/-- C4: a numeric room count of 9 or more buckets to "8+"; a numeric bathroom
count above 5 buckets to "5+"; a bathroom value of 0, or text containing
"არ აქვს"/"არა", maps to the fixed none-token "არ აქვს". -/
theorem c4_bucket_tokens :
    (∀ q : ℚ, 9 ≤ q → roomSearchText (.num q) = "8+") ∧
    (∀ q : ℚ, 5 < q → bathroomSearchText (.num q) = "5+") ∧
    bathroomSearchText (.num 0) = "არ აქვს" ∧
    (∀ s : String,
      jsIncludes (jsToLower s) "არ აქვს" = true ∨ jsIncludes (jsToLower s) "არა" = true →
      bathroomSearchText (.str s) = "არ აქვს") := by
  refine ⟨?_, ?_, ?_, ?_⟩
  · intro q hq
    unfold roomSearchText jsParseFloatVal
    dsimp only
    rw [if_pos (lt_of_lt_of_le (by norm_num) hq)]
  · intro q hq
    unfold bathroomSearchText jsParseFloatVal
    dsimp only
    rw [if_neg, if_pos hq]
    rintro (h | h | h | h)
    · rw [JsVal.num.injEq] at h
      exact absurd (h ▸ hq) (by norm_num)
    · exact JsVal.noConfusion h
    · rw [jsValToString] at h
      rw [jsIncludes_num_false q "არ აქვს" 'ა' (by decide) (by decide)] at h
      exact Bool.false_ne_true h
    · rw [jsValToString] at h
      rw [jsIncludes_num_false q "არა" 'ა' (by decide) (by decide)] at h
      exact Bool.false_ne_true h
  · unfold bathroomSearchText
    rw [if_pos (Or.inl rfl)]
  · intro s h
    unfold bathroomSearchText
    rw [if_pos]
    rcases h with h | h
    · exact Or.inr (Or.inr (Or.inl h))
    · exact Or.inr (Or.inr (Or.inr h))

theorem isPriceChar_of_digit {c : Char} (h : c.isDigit = true) :
    isPriceChar c = true := by
  simp [isPriceChar, h]

theorem digit_ne_comma {c : Char} (h : c.isDigit = true) : c ≠ ',' := by
  rintro rfl
  exact absurd h (by decide)

theorem takeWhile_eq_self_of {p : Char → Bool} {l : List Char}
    (h : ∀ c ∈ l, p c = true) : l.takeWhile p = l := by
  induction l with
  | nil => rfl
  | cons c rest ih =>
    rw [List.takeWhile_cons, h c (List.mem_cons_self c rest)]
    simp [ih (fun x hx => h x (List.mem_cons_of_mem c hx))]

theorem simpleParse_digits {d : List Char} (hne : d ≠ [])
    (hd : ∀ c ∈ d, c.isDigit = true) : simpleParse d = some (digitsVal d) := by
  unfold simpleParse
  dsimp only
  have ht : d.takeWhile jsIsDigit = d := takeWhile_eq_self_of (fun c hc => hd c hc)
  have hdr : d.dropWhile jsIsDigit = [] := by
    rw [List.dropWhile_eq_nil_iff]
    intro x hx
    exact hd x hx
  rw [ht, hdr]
  have hemp : d.isEmpty = false := by
    cases d with
    | nil => exact absurd rfl hne
    | cons a b => rfl
  simp [hemp]

/-- C7: a numeric attribute value consisting of digits followed by one
non-digit unit character is cleaned by dropping exactly that character and
parsed as a float (so "120²" → 120); whenever the parse fails the original
string is retained, and the conversion is total (no error path). -/
theorem c7_numeric_detail_parsing :
    (∀ (d : List Char) (u : Char), d ≠ [] → (∀ c ∈ d, c.isDigit = true) →
      u.isDigit = false → jsIsSpace u = false →
      parseNumericDetail ((d ++ [u]).asString) = .num ((digitsVal d : ℚ))) ∧
    parseNumericDetail "120²" = .num ((120 : ℚ)) ∧
    (∀ s : String, jsParseFloatList (cleanNumericString s) = none →
      parseNumericDetail s = .str s) := by
  have hmain : ∀ (d : List Char) (u : Char), d ≠ [] → (∀ c ∈ d, c.isDigit = true) →
      u.isDigit = false → jsIsSpace u = false →
      parseNumericDetail ((d ++ [u]).asString) = .num ((digitsVal d : ℚ)) := by
    intro d u hne hd hu hus
    have hclean : cleanNumericString ((d ++ [u]).asString) = d := by
      unfold cleanNumericString
      rw [toList_asString]
      have hnospace : ∀ c ∈ d ++ [u], jsIsSpace c = false := by
        intro c hc
        rcases List.mem_append.mp hc with h1 | h1
        · exact isPriceChar_not_space (isPriceChar_of_digit (hd c h1))
        · rcases List.mem_singleton.mp h1 with rfl
          exact hus
      rw [trimList_eq_self_of hnospace]
      dsimp only
      rw [List.getLastD_concat, List.dropLast_concat]
      rw [if_pos]
      · rw [trimList_eq_self_of (fun c hc =>
          isPriceChar_not_space (isPriceChar_of_digit (hd c hc)))]
        rw [List.filter_eq_self.mpr (fun c hc => isPriceChar_of_digit (hd c hc))]
        exact replaceFirstChar_eq_self_of (fun x hx => digit_ne_comma (hd x hx))
      · constructor
        · simp
        · simpa [jsIsDigit] using hu
    unfold parseNumericDetail
    rw [hclean]
    rw [jsParseFloatList_eq_simpleParse d (fun c hc => isPriceChar_of_digit (hd c hc))]
    rw [simpleParse_digits hne hd]
    rfl
  refine ⟨hmain, ?_, ?_⟩
  · have h := hmain ['1', '2', '0'] '²' (by decide) (by decide) (by decide) (by decide)
    rw [show (['1', '2', '0'] ++ ['²']).asString = "120²" from by decide] at h
    rw [h]
    norm_num [show digitsVal ['1', '2', '0'] = 120 from by decide]
  · intro s h
    unfold parseNumericDetail
    rw [h]

theorem c7_numeric_detail_witness :
    parseNumericDetail ((['4', '2'] ++ ['მ']).asString) = .num ((digitsVal ['4', '2'] : ℚ)) ∧
    parseNumericDetail "--" = .str "--" :=
  ⟨c7_numeric_detail_parsing.1 ['4', '2'] 'მ' (by decide) (by decide) (by decide) (by decide),
   c7_numeric_detail_parsing.2.2 "--" (by
     rw [jsParseFloatList,
       show jsParseFloatShape (cleanNumericString "--") = none from by decide]
     rfl)⟩

theorem c4_bucket_tokens_witness :
    roomSearchText (.num 9) = "8+" ∧
    bathroomSearchText (.num 6) = "5+" ∧
    bathroomSearchText (.str "არ აქვს") = "არ აქვს" :=
  ⟨c4_bucket_tokens.1 9 (by norm_num),
   c4_bucket_tokens.2.1 6 (by norm_num),
   c4_bucket_tokens.2.2.2 "არ აქვს" (Or.inl (by decide))⟩

theorem dropWhile_append_left (p : Char → Bool) (u v : List Char)
    (hx : ∃ x ∈ u, p x = false) :
    (u ++ v).dropWhile p = u.dropWhile p ++ v ∧ u.dropWhile p ≠ [] := by
  induction u with
  | nil =>
    rcases hx with ⟨x, hx, _⟩
    simp at hx
  | cons a u' ih =>
    by_cases ha : p a = true
    · rcases hx with ⟨x, hxmem, hxp⟩
      have hxu' : x ∈ u' := by
        rcases List.mem_cons.mp hxmem with rfl | h1
        · rw [ha] at hxp
          exact absurd hxp (by simp)
        · exact h1
      have ih' := ih ⟨x, hxu', hxp⟩
      constructor
      · rw [List.cons_append, List.dropWhile_cons, ha, List.dropWhile_cons, ha]
        exact ih'.1
      · rw [List.dropWhile_cons, ha]
        exact ih'.2
    · have ha' : p a = false := by
        cases h : p a
        · rfl
        · exact absurd h ha
      constructor
      · rw [List.cons_append, List.dropWhile_cons, ha', List.dropWhile_cons, ha']
        simp
      · rw [List.dropWhile_cons, ha']
        simp

theorem head?_some_not_space {l : List Char}
    (h : ∀ z, l.head? = some z → jsIsSpace z = false) :
    l.dropWhile jsIsSpace = l := by
  cases l with
  | nil => rfl
  | cons c rest =>
    rw [List.dropWhile_cons, h c rfl]
    simp

theorem trimList_eq_self_of_ends {l : List Char}
    (hh : ∀ z, l.head? = some z → jsIsSpace z = false)
    (hl : ∀ z, l.getLast? = some z → jsIsSpace z = false) :
    trimList l = l := by
  unfold trimList
  rw [head?_some_not_space hh]
  rw [head?_some_not_space (fun z hz => hl z (by rwa [List.head?_reverse] at hz))]
  exact List.reverse_reverse l

theorem mem_of_getLast?_eq {l : List Char} {z : Char}
    (h : l.getLast? = some z) : z ∈ l := by
  induction l with
  | nil => simp at h
  | cons a l' ih =>
    cases l' with
    | nil =>
      simp only [List.getLast?_singleton, Option.some.injEq] at h
      exact h ▸ List.mem_singleton_self a
    | cons b l'' =>
      rw [List.getLast?_cons_cons] at h
      exact List.mem_cons_of_mem a (ih h)

theorem microSearch_append (micro : List Char) :
    ∀ acc, micro ≠ [] → (∀ c ∈ micro, jsDotChar c = true) →
    (∀ z, micro.getLast? = some z → jsIsSpace z = false) →
    microSearch acc (micro ++ ' ' :: mrTail) = some (acc ++ micro) := by
  induction micro with
  | nil => intro acc hne _ _; exact absurd rfl hne
  | cons x m' ih =>
    intro acc _ hdot hlast
    have hx : jsDotChar x = true := hdot x (List.mem_cons_self x m')
    rw [List.cons_append]
    unfold microSearch
    rw [hx]
    simp only [if_true]
    by_cases hm' : m' = []
    · subst hm'
      rw [show tailRestOk ([] ++ ' ' :: mrTail) = true from by decide]
      simp
    · obtain ⟨b, m'', rfl⟩ : ∃ b m'', m' = b :: m'' := by
        cases m' with
        | nil => exact absurd rfl hm'
        | cons b m'' => exact ⟨b, m'', rfl⟩
      have hlast' : ∀ z, (b :: m'').getLast? = some z → jsIsSpace z = false := by
        intro z hz
        exact hlast z (by rwa [List.getLast?_cons_cons])
      have hzlast : ∃ zl, (b :: m'').getLast? = some zl := by
        cases hg : (b :: m'').getLast? with
        | none => exact absurd hg (by simp)
        | some zl => exact ⟨zl, rfl⟩
      rcases hzlast with ⟨zl, hzl⟩
      have hdw := dropWhile_append_left jsIsSpace (b :: m'') (' ' :: mrTail)
        ⟨zl, mem_of_getLast?_eq hzl, hlast' zl hzl⟩
      have htail : tailRestOk ((b :: m'') ++ ' ' :: mrTail) = false := by
        unfold tailRestOk
        rw [hdw.1, beq_eq_false_iff_ne]
        intro heq
        have hlen := congrArg List.length heq
        rcases hne : (b :: m'').dropWhile jsIsSpace with _ | ⟨e, t⟩
        · exact hdw.2 hne
        · rw [hne] at hlen
          simp [mrTail] at hlen
      rw [htail]
      simp only [Bool.false_eq_true, if_false]
      rw [ih (acc ++ [x]) (by simp)
        (fun c hc => hdot c (List.mem_cons_of_mem x hc)) hlast']
      simp

theorem districtSearch_append (district : List Char) (micro : List Char)
    (hd2 : '-' ∉ district) (hd3 : ∀ c ∈ district, jsDotChar c = true)
    (hd5 : ∀ z, district.getLast? = some z → jsIsSpace z = false)
    (hm1 : micro ≠ []) (hm3 : ∀ c ∈ micro, jsDotChar c = true)
    (hm4 : ∀ z, micro.head? = some z → jsIsSpace z = false)
    (hm5 : ∀ z, micro.getLast? = some z → jsIsSpace z = false) :
    ∀ acc, district ≠ [] →
    districtSearch acc (district ++ ' ' :: '-' :: ' ' :: (micro ++ ' ' :: mrTail)) =
      some (acc ++ district, micro) := by
  induction district with
  | nil => intro acc hne; exact absurd rfl hne
  | cons x d' ih =>
    intro acc _
    have hx : jsDotChar x = true := hd3 x (List.mem_cons_self x d')
    rw [List.cons_append]
    unfold districtSearch
    rw [hx]
    simp only [if_true]
    by_cases hd' : d' = []
    · subst hd'
      have hsep : sepThenMicro ([] ++ ' ' :: '-' :: ' ' :: (micro ++ ' ' :: mrTail)) =
          some micro := by
        unfold sepThenMicro
        rw [List.nil_append]
        rw [show (' ' :: '-' :: ' ' :: (micro ++ ' ' :: mrTail)).dropWhile jsIsSpace =
          '-' :: ' ' :: (micro ++ ' ' :: mrTail) from by
            rw [List.dropWhile_cons, show jsIsSpace ' ' = true from by decide,
              List.dropWhile_cons, show jsIsSpace '-' = false from by decide]
            simp]
        dsimp only
        rw [if_pos (show ('-' :: ' ' :: (micro ++ ' ' :: mrTail)).head? = some '-' from rfl)]
        rw [show ('-' :: ' ' :: (micro ++ ' ' :: mrTail)).tail = ' ' :: (micro ++ ' ' :: mrTail) from rfl]
        rw [List.dropWhile_cons, show jsIsSpace ' ' = true from by decide]
        simp only [if_true]
        rw [head?_some_not_space (fun z hz => by
          cases micro with
          | nil => exact absurd rfl hm1
          | cons m0 mrest =>
            rw [List.cons_append, List.head?_cons] at hz
            rw [← Option.some.inj hz]
            exact hm4 m0 rfl)]
        rw [microSearch_append micro [] hm1 hm3 hm5]
        simp
      rw [hsep]
    · obtain ⟨b, d'', rfl⟩ : ∃ b d'', d' = b :: d'' := by
        cases d' with
        | nil => exact absurd rfl hd'
        | cons b d'' => exact ⟨b, d'', rfl⟩
      have hlast' : ∀ z, (b :: d'').getLast? = some z → jsIsSpace z = false := by
        intro z hz
        exact hd5 z (by rwa [List.getLast?_cons_cons])
      have hzlast : ∃ zl, (b :: d'').getLast? = some zl := by
        cases hg : (b :: d'').getLast? with
        | none => exact absurd hg (by simp)
        | some zl => exact ⟨zl, rfl⟩
      rcases hzlast with ⟨zl, hzl⟩
      have hdw := dropWhile_append_left jsIsSpace (b :: d'')
        (' ' :: '-' :: ' ' :: (micro ++ ' ' :: mrTail))
        ⟨zl, mem_of_getLast?_eq hzl, hlast' zl hzl⟩
      have hsep : sepThenMicro ((b :: d'') ++ ' ' :: '-' :: ' ' :: (micro ++ ' ' :: mrTail)) =
          none := by
        unfold sepThenMicro
        dsimp only
        rw [hdw.1]
        rcases hne : (b :: d'').dropWhile jsIsSpace with _ | ⟨e, t⟩
        · exact absurd hne hdw.2
        · have he : e ∈ (b :: d'') := by
            have hsub : List.Sublist ((b :: d'').dropWhile jsIsSpace) (b :: d'') :=
              List.dropWhile_sublist jsIsSpace
            exact hsub.mem (hne ▸ List.mem_cons_self e t)
          have hene : e ≠ '-' := by
            intro heq
            exact hd2 (List.mem_cons_of_mem x (heq ▸ he))
          rw [List.cons_append, List.head?_cons]
          rw [if_neg (by simp [hene])]
      rw [hsep]
      rw [ih (fun hmem => hd2 (List.mem_cons_of_mem x hmem))
        (fun c hc => hd3 c (List.mem_cons_of_mem x hc)) hlast'
        (acc ++ [x]) (by simp)]
      simp

/-- C5: at scrape time every address of the form
`"{district} - {microdistrict} მ/რ"` (district and microdistrict trimmed,
dash-free district, no line terminators) becomes
`"{microdistrict} მიკრორაიონი - {district}"`, and non-matching addresses are
returned unchanged; the later street normalizer rewrites the plateau form
`"ნუცუბიძის პლ. II მ/რ. I კვარტ."` to `"ნუცუბიძის II პლატო"` and strips
street-type suffixes (`"ასპინძის ქ."` → `"ასპინძის"`). -/
theorem c5_address_transforms :
    (∀ district micro : List Char,
      district ≠ [] → '-' ∉ district → (∀ c ∈ district, jsDotChar c = true) →
      (∀ z, district.head? = some z → jsIsSpace z = false) →
      (∀ z, district.getLast? = some z → jsIsSpace z = false) →
      micro ≠ [] → (∀ c ∈ micro, jsDotChar c = true) →
      (∀ z, micro.head? = some z → jsIsSpace z = false) →
      (∀ z, micro.getLast? = some z → jsIsSpace z = false) →
      transformAddress ((district ++ " - ".toList ++ micro ++ " მ/რ".toList).asString) =
        (micro ++ " მიკრორაიონი - ".toList ++ district).asString) ∧
    transformAddress "გლდანი - ა მ/რ" = "ა მიკრორაიონი - გლდანი" ∧
    (∀ s : String, transformAddressMatch s.toList = none → transformAddress s = s) ∧
    normalizeStreetForSs "ნუცუბიძის პლ. II მ/რ. I კვარტ." = "ნუცუბიძის II პლატო" ∧
    normalizeStreetForSs "ასპინძის ქ." = "ასპინძის" := by
  refine ⟨?_, by decide, ?_, by decide, by decide⟩
  · intro district micro hd1 hd2 hd3 hd4 hd5 hm1 hm3 hm4 hm5
    have hlist : district ++ " - ".toList ++ micro ++ " მ/რ".toList =
        district ++ ' ' :: '-' :: ' ' :: (micro ++ ' ' :: mrTail) := by
      rw [show " - ".toList = [' ', '-', ' '] from rfl,
        show " მ/რ".toList = ' ' :: mrTail from rfl]
      simp
    rw [hlist]
    have hne0 : ¬((district ++ ' ' :: '-' :: ' ' :: (micro ++ ' ' :: mrTail)).asString = "") := by
      intro h
      have h2 := congrArg String.toList h
      rw [toList_asString] at h2
      cases district with
      | nil => exact hd1 rfl
      | cons a l => simp at h2
    unfold transformAddress
    rw [if_neg hne0, toList_asString]
    rw [show transformAddressMatch
        (district ++ ' ' :: '-' :: ' ' :: (micro ++ ' ' :: mrTail)) =
        some (district, micro) from by
      unfold transformAddressMatch
      rw [districtSearch_append district micro hd2 hd3 hd5 hm1 hm3 hm4 hm5 [] hd1]
      simp]
    dsimp only
    rw [trimList_eq_self_of_ends hm4 hm5, trimList_eq_self_of_ends hd4 hd5]
  · intro s hnone
    unfold transformAddress
    by_cases hs : s = ""
    · rw [if_pos hs]
    · rw [if_neg hs, hnone]

theorem c5_address_transforms_witness :
    transformAddress (("გლდანი".toList ++ " - ".toList ++ "ა".toList ++
        " მ/რ".toList).asString) =
      ("ა".toList ++ " მიკრორაიონი - ".toList ++ "გლდანი".toList).asString ∧
    transformAddress "თავისუფლების მოედანი" = "თავისუფლების მოედანი" :=
  ⟨c5_address_transforms.1 "გლდანი".toList "ა".toList (by decide) (by decide)
      (by decide)
      (fun z hz => by
        have hzg : 'გ' = z := Option.some.inj hz
        rw [← hzg]; decide)
      (fun z hz => by
        have hzg : 'ი' = z := Option.some.inj hz
        rw [← hzg]; decide)
      (by decide) (by decide)
      (fun z hz => by
        have hzg : 'ა' = z := Option.some.inj hz
        rw [← hzg]; decide)
      (fun z hz => by
        have hzg : 'ა' = z := Option.some.inj hz
        rw [← hzg]; decide),
   c5_address_transforms.2.2.1 "თავისუფლების მოედანი" (by decide)⟩

/-- C6: both option matchers try exact trimmed equality before any
containment strategy, so whenever an option exactly equal to the target is
present it is returned (the first such one); in particular, with sibling
options "III ა მიკრორაიონი" and "ა მიკრორაიონი" and target "ა მიკრორაიონი"
the exact match is selected even though the longer sibling contains the
target and precedes it. -/
theorem c6_exact_match_preferred :
    (∀ (opts : List String) (target : String),
      (∃ o ∈ opts, jsTrim o = target) →
      findStreetOption opts target = opts.find? (fun o => jsTrim o == target) ∧
      findRoomOption opts target = opts.find? (fun o => jsTrim o == target)) ∧
    findStreetOption ["III ა მიკრორაიონი", "ა მიკრორაიონი"] "ა მიკრორაიონი" =
      some "ა მიკრორაიონი" := by
  constructor
  · intro opts target hex
    have hsome : (opts.find? (fun o => jsTrim o == target)).isSome := by
      rw [List.find?_isSome]
      rcases hex with ⟨o, ho, htrim⟩
      exact ⟨o, ho, by simp [htrim]⟩
    rcases Option.isSome_iff_exists.mp hsome with ⟨o, ho⟩
    constructor
    · unfold findStreetOption
      rw [ho]
    · unfold findRoomOption
      rw [ho]
  · decide

theorem c6_exact_match_witness :
    findStreetOption ["III ა მიკრორაიონი", "ა მიკრორაიონი"] "ა მიკრორაიონი" =
      (["III ა მიკრორაიონი", "ა მიკრორაიონი"].find?
        (fun o => jsTrim o == "ა მიკრორაიონი")) ∧
    findRoomOption ["8+", "3"] "3" = (["8+", "3"].find? (fun o => jsTrim o == "3")) :=
  ⟨(c6_exact_match_preferred.1 _ _ ⟨"ა მიკრორაიონი", by decide, by decide⟩).1,
   (c6_exact_match_preferred.1 ["8+", "3"] "3" ⟨"3", by decide, by decide⟩).2⟩

/-- C8: with a locator that never finds its element, the category gate stops
after its fixed budget of 3 retries at 500 ms (4 locate attempts, 1500 ms of
scheduled delay) and runs its failure path exactly once; the bathroom fill
stops after 5 retries at 500 ms (6 probes, 2500 ms) and runs its failure path
exactly once. -/
theorem c8_retry_exhaustion :
    (∀ found : ℕ → Bool, (∀ t, found t = false) →
      trySelectCategoryRun found = ⟨.exhausted, 4, 1, 1500⟩) ∧
    (∀ containerFound : ℕ → Bool, (∀ t, containerFound t = false) →
      fillBathroomRetryRun containerFound = ⟨.exhausted, 6, 1, 2500⟩) := by
  constructor
  · intro found h
    unfold trySelectCategoryRun
    rw [trySelectCategoryLoop, h, trySelectCategoryLoop, h, trySelectCategoryLoop, h,
      trySelectCategoryLoop, h]
    norm_num [categoryMaxRetries, categoryRetryDelayMs]
  · intro containerFound h
    unfold fillBathroomRetryRun
    rw [fillBathroomRetryLoop, h, fillBathroomRetryLoop, h, fillBathroomRetryLoop, h,
      fillBathroomRetryLoop, h, fillBathroomRetryLoop, h, fillBathroomRetryLoop, h]
    norm_num [bathroomMaxRetries, bathroomRetryDelayMs]

theorem c8_retry_exhaustion_witness :
    trySelectCategoryRun (fun _ => false) = ⟨.exhausted, 4, 1, 1500⟩ ∧
    fillBathroomRetryRun (fun _ => false) = ⟨.exhausted, 6, 1, 2500⟩ :=
  ⟨c8_retry_exhaustion.1 (fun _ => false) (fun _ => rfl),
   c8_retry_exhaustion.2 (fun _ => false) (fun _ => rfl)⟩

/-- C9: every deal type produced by the scraper's detector normalizes to one
of the three canonical tokens (qualified phrasings reduce to their stem, a
missing deal type defaults to "იყიდება"); and when the primary canonical
token is never located across the retry budget but the alternate token is
found, the alternate is clicked as a logged substitution rather than
failing. -/
theorem c9_deal_type_normalization_and_fallback :
    (∀ pageText : String,
      normalizeDealType (detectDealType pageText) ∈
        (["იყიდება", "ქირავდება", "გირავდება"] : List String)) ∧
    normalizeDealType none = "იყიდება" ∧
    normalizeDealType (some "ქირავდება დღიურად") = "ქირავდება" ∧
    (∀ (find : ℕ → String → Bool) (scraped : Option String),
      (∀ t, find t (normalizeDealType scraped) = false) →
      ∀ alt,
        (dealTypeAlternatives (normalizeDealType scraped)).find?
          (fun a => find dealTypeMaxRetries a) = some alt →
        selectDealTypeRun find scraped = .substituted alt) := by
  refine ⟨?_, by decide, by decide, ?_⟩
  · intro pageText
    rcases hd : detectDealType pageText with _ | d
    · decide
    · have hmem : d ∈ dealTypePhrases := List.mem_of_find?_eq_some hd
      have : d = "ქირავდება დღიურად" ∨ d = "ქირავდება" ∨ d = "გირავდება" ∨
          d = "იყიდება" := by
        simpa [dealTypePhrases] using hmem
      rcases this with rfl | rfl | rfl | rfl <;> decide
  · intro find scraped h alt halt
    unfold selectDealTypeRun
    rw [selectDealTypeLoop, h, selectDealTypeLoop, h, selectDealTypeLoop, h,
      selectDealTypeLoop, h]
    simp only [dealTypeMaxRetries] at halt ⊢
    norm_num
    rw [halt]

theorem c9_deal_type_witness :
    normalizeDealType (detectDealType "აქ წერია: იყიდება ბინა") = "იყიდება" ∧
    selectDealTypeRun (fun _ token => token == "ქირავდება") none =
      .substituted "ქირავდება" :=
  ⟨by decide,
   c9_deal_type_normalization_and_fallback.2.2.2 (fun _ token => token == "ქირავდება")
     none (fun _ => rfl) "ქირავდება" (by decide)⟩

theorem getFirstTextMatch_emptyDom (sels : List String) :
    getFirstTextMatch emptyDom sels = none := by
  induction sels with
  | nil => rfl
  | cons s rest ih =>
    rw [getFirstTextMatch]
    by_cases hs : s = ""
    · simpa [hs] using ih
    · rw [if_neg hs]
      cases hn : normalizeSelector s with
      | none => exact ih
      | some ns =>
        dsimp only
        by_cases hns : ns = ""
        · simpa [hns] using ih
        · rw [if_neg hns]
          exact ih

theorem scrapeMappedAttribute_emptyDom (m : List (String × String)) (a : String) :
    scrapeMappedAttribute emptyDom m a = none := by
  unfold scrapeMappedAttribute
  dsimp only
  cases hl : m.lookup a with
  | none =>
    cases hf : FALLBACK_SELECTORS.lookup a with
    | none => rfl
    | some fsels => exact getFirstTextMatch_emptyDom fsels
  | some sel =>
    dsimp only
    rw [getFirstTextMatch_emptyDom [sel]]
    cases hf : FALLBACK_SELECTORS.lookup a with
    | none => by_cases hsel : sel = "" <;> simp [hsel]
    | some fsels =>
      by_cases hsel : sel = "" <;> simp [hsel, getFirstTextMatch_emptyDom fsels]

/-- C2: for every page and every selector mapping, `scrapeListingFromDom`
returns the full seven-field record, with `scrapedAt`, `url`, `images`,
`furniture`, `additionalParameters` and `dealType` always filled from the
collectors; when the address, price and short description all fail to
resolve, `propertyDetails` is exactly the collector output — the unresolved
keys are absent rather than null-filled; and on a page where every query
misses and every section is absent the result is the all-empty record (no
exception path exists: the embedding is a total function). -/
theorem c2_total_record_shape (dom : Dom) (m : List (String × String))
    (haddr : scrapeMappedAttribute dom m "address" = none)
    (hprice : getFirstTextMatch dom priceSelectors = none)
    (hsd : dom.shortDescription = none) :
    scrapeListingFromDom dom m =
      { scrapedAt := dom.now
        url := dom.href
        propertyDetails := collectPropertyDetails dom
        images := collectGalleryImages dom
        furniture := collectFurnitureItems dom
        additionalParameters := collectAdditionalParameters dom
        dealType := detectDealType dom.bodyText } ∧
    scrapeListingFromDom emptyDom m =
      { scrapedAt := "2026-01-01T00:00:00.000Z"
        url := "https://example.invalid/listing"
        propertyDetails := []
        images := []
        furniture := []
        additionalParameters := []
        dealType := none } := by
  constructor
  · unfold scrapeListingFromDom
    dsimp only
    rw [haddr, hprice, hsd]
  · unfold scrapeListingFromDom
    dsimp only
    rw [scrapeMappedAttribute_emptyDom m "address",
      getFirstTextMatch_emptyDom priceSelectors]
    decide

theorem c2_total_record_shape_witness :
    scrapeListingFromDom emptyDom [] =
      { scrapedAt := "2026-01-01T00:00:00.000Z"
        url := "https://example.invalid/listing"
        propertyDetails := collectPropertyDetails emptyDom
        images := collectGalleryImages emptyDom
        furniture := collectFurnitureItems emptyDom
        additionalParameters := collectAdditionalParameters emptyDom
        dealType := detectDealType emptyDom.bodyText } ∧
    scrapeListingFromDom emptyDom [] =
      { scrapedAt := "2026-01-01T00:00:00.000Z"
        url := "https://example.invalid/listing"
        propertyDetails := []
        images := []
        furniture := []
        additionalParameters := []
        dealType := none } :=
  c2_total_record_shape emptyDom [] (by decide) (by decide) rfl

/-- C10 counterexample: `loadMappings` does not return an empty mapping when
the resource is missing or unparseable — it throws (rejects) in both cases,
so the error does reach the caller's control flow. -/
theorem c10_load_mappings_counterexample :
    loadMappings .missing = .error "Failed to load mappings.csv" ∧
    exceptThrows (loadMappings .missing) = true ∧
    loadMappings (.content "attribute_name,address") =
      .error "mappings.csv must have at least 2 lines (header and data)" ∧
    exceptThrows (loadMappings (.content "attribute_name,address")) = true :=
  ⟨rfl, rfl, rfl, rfl⟩

/-- C10 (amended): `loadMappings` itself throws on a missing or unparseable
resource, but its caller catches the error and keeps the empty mapping, so
the scrape still proceeds: the effective mapping is always either the parsed
CSV or `[]`, a missing resource and a one-line resource both yield `[]`, a
well-formed two-line CSV yields the parsed pairs, and under the empty
mapping every attribute degrades to its built-in fallback selector list
(shown for `"address"`). -/
theorem c10_mapping_failure_degrades :
    (∀ r : MappingResource, effectiveMappings r = [] ∨
      ∃ ms, loadMappings r = .ok ms ∧ effectiveMappings r = ms) ∧
    effectiveMappings .missing = [] ∧
    effectiveMappings (.content "attribute_name,address") = [] ∧
    loadMappings (.content "address,rooms\n.addr-x,.rooms-x") =
      .ok [("address", ".addr-x"), ("rooms", ".rooms-x")] ∧
    (∀ dom : Dom, scrapeMappedAttribute dom [] "address" =
      getFirstTextMatch dom ["[itemprop=\"address\"]",
        ".flex.flex-col.items-start .flex.items-center span:last-child"]) := by
  refine ⟨?_, rfl, rfl, rfl, fun dom => rfl⟩
  intro r
  cases h : loadMappings r with
  | error e =>
    left
    unfold effectiveMappings
    rw [h]
  | ok ms =>
    right
    refine ⟨ms, rfl, ?_⟩
    unfold effectiveMappings
    rw [h]

end WebScraper
